import Mathlib

/-!
# numaresources-operator: the RTE configuration codec and its artifact

A shallow embedding of `rte/pkg/config/config.go` (package `config`) and of the
helpers around it, together with the properties the specification states
about them.

Conventions of the embedding

* A Go `string` is a Lean `String`.
* A Go `error` is `Option Error`: `none` is the `nil` error, `some msg` an error
  carrying the message `msg`.
* A Go `map[K]V` value is `Option (GoMap K V)`: `none` is the `nil` map, `some m`
  an allocated map.  A `GoMap` is an association list with pairwise distinct
  keys; the order of the list is the order in which the map is traversed.
* A Go pointer `*T` is `Option T` where the code tests it against `nil`.
-/

/-! ## Go maps -/

/-- Write `k ↦ v` into an association list: replace the entry of `k` when there
is one, append a new entry otherwise (the Go statement `m[k] = v`). -/
def setEntry {K V : Type} [DecidableEq K] (k : K) (v : V) : List (K × V) → List (K × V)
  | [] => [(k, v)]
  | (k0, v0) :: rest => if k0 = k then (k, v) :: rest else (k0, v0) :: setEntry k v rest

theorem setEntry_keys_of_mem {K V : Type} [DecidableEq K] (k : K) (v : V) :
    ∀ l : List (K × V), k ∈ l.map Prod.fst → (setEntry k v l).map Prod.fst = l.map Prod.fst
  | [], h => by simp at h
  | (k0, v0) :: rest, h => by
    by_cases hk : k0 = k
    · simp [setEntry, hk]
    · have hmem : k ∈ rest.map Prod.fst := by
        simp only [List.map_cons, List.mem_cons] at h
        rcases h with h | h
        · exact absurd h.symm hk
        · exact h
      simp [setEntry, hk, setEntry_keys_of_mem k v rest hmem]

theorem setEntry_of_not_mem {K V : Type} [DecidableEq K] (k : K) (v : V) :
    ∀ l : List (K × V), k ∉ l.map Prod.fst → setEntry k v l = l ++ [(k, v)]
  | [], _ => rfl
  | (k0, v0) :: rest, h => by
    simp only [List.map_cons, List.mem_cons, not_or] at h
    have hk : ¬ k0 = k := fun e => h.1 e.symm
    simp [setEntry, hk, setEntry_of_not_mem k v rest h.2]

theorem setEntry_keys_nodup {K V : Type} [DecidableEq K] (k : K) (v : V) (l : List (K × V))
    (h : (l.map Prod.fst).Nodup) : ((setEntry k v l).map Prod.fst).Nodup := by
  by_cases hk : k ∈ l.map Prod.fst
  · rw [setEntry_keys_of_mem k v l hk]; exact h
  · rw [setEntry_of_not_mem k v l hk]
    simp only [List.map_append, List.map_cons, List.map_nil]
    exact List.Nodup.append h (List.nodup_singleton k) (by simpa using hk)

/-- An allocated Go map: entries with pairwise distinct keys. -/
structure GoMap (K V : Type) [DecidableEq K] where
  entries : List (K × V)
  nodup : (entries.map Prod.fst).Nodup

namespace GoMap

variable {K V : Type} [DecidableEq K]

theorem ext_entries : ∀ {a b : GoMap K V}, a.entries = b.entries → a = b
  | ⟨_, _⟩, ⟨_, _⟩, h => by cases h; rfl

instance [DecidableEq V] : DecidableEq (GoMap K V) := fun a b =>
  if h : a.entries = b.entries then isTrue (ext_entries h)
  else isFalse (fun e => h (by rw [e]))

/-- The map `map[K]V{}` (or `make(map[K]V)`). -/
def empty : GoMap K V := ⟨[], List.nodup_nil⟩

/-- The map literal `map[K]V{k: v}`. -/
def single (k : K) (v : V) : GoMap K V := ⟨[(k, v)], by simp⟩

/-- The statement `m[k] = v`. -/
def set (m : GoMap K V) (k : K) (v : V) : GoMap K V :=
  ⟨setEntry k v m.entries, setEntry_keys_nodup k v m.entries m.nodup⟩

/-- The expression `v, ok := m[k]`: `none` stands for `ok == false`. -/
def get (m : GoMap K V) (k : K) : Option V := m.entries.lookup k

/-- The keys of the map. -/
def keys (m : GoMap K V) : List K := m.entries.map Prod.fst

/-- The builtin `len(m)` of an allocated map. -/
def len (m : GoMap K V) : Nat := m.entries.length

end GoMap

/-- The builtin `len(m)` of a map value: `0` for the `nil` map. -/
def mapLen {K V : Type} [DecidableEq K] : Option (GoMap K V) → Nat
  | none => 0
  | some m => m.len

/-- The expression `v, ok := m[k]` on a map value; reading a `nil` map finds nothing. -/
def mapGet {K V : Type} [DecidableEq K] (m : Option (GoMap K V)) (k : K) : Option V :=
  match m with
  | none => none
  | some g => g.get k

/-- A Go `error` value that is not `nil`, identified by its message. -/
abbrev Error := String

/-! ## `k8s.io/api/core/v1.ConfigMap`, as far as the code touches it -/

/-- The `metav1.TypeMeta` part of an object. -/
structure TypeMeta where
  Kind : String
  APIVersion : String
deriving DecidableEq, Repr

/-- The `metav1.ObjectMeta` fields the code sets or reads. -/
structure ObjectMeta where
  Name : String
  Namespace : String
  Labels : Option (GoMap String String)
deriving DecidableEq

/-- The `corev1.ConfigMap` fields the code sets or reads. -/
structure ConfigMap where
  typeMeta : TypeMeta
  objectMeta : ObjectMeta
  Data : Option (GoMap String String)
deriving DecidableEq

namespace config

/-- The constant `Key` (config.go, line 34). -/
def Key : String := "config.yaml"

/-- The function `CreateConfigMap` (config.go, lines 78-94).  The returned
pointer is the address of a composite literal and therefore never `nil`, so
the result is the `ConfigMap` itself. -/
def CreateConfigMap (ns name configData : String) : ConfigMap :=
  { typeMeta := { Kind := "ConfigMap", APIVersion := "v1" }
    objectMeta := { Name := name, Namespace := ns, Labels := none }
    Data := some (GoMap.single Key configData) }

/-- The Go verb `%q` applied to the constant `Key`. -/
def quotedKey : String := "\"config.yaml\""

/-- The error of line 98, `fmt.Errorf("nil config map")`. -/
def nilConfigMapError : Error := "nil config map"

/-- The error of line 101, `fmt.Errorf("missing data in config map %s/%s", ...)`. -/
def missingDataError (c : ConfigMap) : Error :=
  "missing data in config map " ++ c.objectMeta.Namespace ++ "/" ++ c.objectMeta.Name

/-- The error of line 105,
`fmt.Errorf("missing expected key %q in config map %s/%s", Key, ...)`. -/
def missingKeyError (c : ConfigMap) : Error :=
  "missing expected key " ++ quotedKey ++ " in config map "
    ++ c.objectMeta.Namespace ++ "/" ++ c.objectMeta.Name

/-- The function `UnpackConfigMap` (config.go, lines 96-108); the argument is
the pointer `cm`, `none` being `nil`. -/
def UnpackConfigMap (cm : Option ConfigMap) : String × Option Error :=
  match cm with
  | none => ("", some nilConfigMapError)
  | some c =>
    match c.Data with
    | none => ("", some (missingDataError c))
    | some data =>
      match data.get Key with
      | none => ("", some (missingKeyError c))
      | some configData => (configData, none)

end config

/-! ## The YAML library (`sigs.k8s.io/yaml`), outside the repository

`yaml.Marshal(o)` is `json.Marshal(o)` followed by `JSONToYAML`, and
`yaml.Unmarshal(y, &o)` is `YAMLToJSON` followed by `json.Unmarshal`.  The
document that travels between the two halves is a `Node`.  The half that
depends on the Go type (which keys a `Config` has, which of them are
`omitempty`) is fixed by the struct tags of `Config` and is embedded below,
together with two things the library does to every document: `JSONToYAML`
refuses a document with a control character the YAML reader does not allow,
and `YAMLToJSON` hands the members of a mapping to `json.Unmarshal` in key
order, the last of two members with the same key only.  The half that reads
and writes YAML text is a parameter, `YAMLLib`. -/

/-- A JSON/YAML document.  Scalars are `null` or a string: every scalar
position of a `Config` is a Go `string`, and the library hands a number or a
boolean met there to the decoder as its text. -/
inductive Node where
  | null : Node
  | str (s : String) : Node
  | seq (items : List Node) : Node
  | map (fields : List (String × Node)) : Node

/-- The text half of the YAML library: `emit` writes a document as text
(`JSONToYAML`, which can fail), `parse` reads a text (`YAMLToJSON`). -/
structure YAMLLib where
  emit : Node → Except Error String
  parse : String → Except Error Node

/-- The characters the YAML reader refuses with "control characters are not
allowed": U+007F, U+0080 to U+009F other than U+0085, U+FFFE and U+FFFF. -/
def refusedChar (c : Char) : Bool :=
  c.toNat == 0x7F || (0x80 ≤ c.toNat && c.toNat ≤ 0x9F && c.toNat != 0x85)
    || c.toNat == 0xFFFE || c.toNat == 0xFFFF

/-- The characters a round trip through the library does not keep: the
refused ones and U+0085, which the reader takes for a line break and folds
into a space. -/
def unkeptChar (c : Char) : Bool :=
  refusedChar c || c.toNat == 0x85

mutual
/-- Some string of the document, a key included, holds a character that
satisfies `p`. -/
def Node.hasChar (p : Char → Bool) : Node → Bool
  | .null => false
  | .str s => s.data.any p
  | .seq items => Node.itemsHaveChar p items
  | .map fields => Node.fieldsHaveChar p fields
/-- Some item of a sequence holds a character that satisfies `p`. -/
def Node.itemsHaveChar (p : Char → Bool) : List Node → Bool
  | [] => false
  | x :: xs => Node.hasChar p x || Node.itemsHaveChar p xs
/-- Some member of a mapping holds a character that satisfies `p`. -/
def Node.fieldsHaveChar (p : Char → Bool) : List (String × Node) → Bool
  | [] => false
  | (k, v) :: fs => k.data.any p || Node.hasChar p v || Node.fieldsHaveChar p fs
end

/-- The order of the keys of a JSON object as `encoding/json` writes a map
and as the library writes and reads a mapping: by code point, a prefix first. -/
def charsLess : List Char → List Char → Bool
  | [], [] => false
  | [], _ :: _ => true
  | _ :: _, [] => false
  | a :: as, b :: bs =>
    if a.toNat < b.toNat then true
    else if b.toNat < a.toNat then false
    else charsLess as bs

/-- The keys come in key order, none twice. -/
def keysAscend : List String → Bool
  | [] => true
  | [_] => true
  | a :: b :: rest => charsLess a.data b.data && keysAscend (b :: rest)

mutual
/-- Every mapping of the document lists its members in key order. -/
def Node.inKeyOrder : Node → Bool
  | .null => true
  | .str _ => true
  | .seq items => Node.itemsInKeyOrder items
  | .map fields => keysAscend (fields.map Prod.fst) && Node.fieldsInKeyOrder fields
/-- Every item of a sequence is in key order. -/
def Node.itemsInKeyOrder : List Node → Bool
  | [] => true
  | x :: xs => Node.inKeyOrder x && Node.itemsInKeyOrder xs
/-- Every value of the members of a mapping is in key order. -/
def Node.fieldsInKeyOrder : List (String × Node) → Bool
  | [] => true
  | (_, v) :: fs => Node.inKeyOrder v && Node.fieldsInKeyOrder fs
end

/-- The library writes every document in key order whose strings it keeps,
and reads back what it wrote.  Nothing is asked of it on the other documents
(it writes the members of a mapping in key order whatever order they are
given in). -/
def YAMLLib.ReadsBack (Y : YAMLLib) : Prop :=
  ∀ n : Node, n.hasChar unkeptChar = false → n.inKeyOrder = true →
    ∃ text : String, Y.emit n = .ok text ∧ Y.parse text = .ok n

/-- The first error wins: `json.Unmarshal` keeps the first type error it
meets and goes on decoding. -/
def firstError : Option Error → Option Error → Option Error
  | some e, _ => some e
  | none, e => e

namespace config

/-- The type `Config` (config.go, lines 37-42).  A `[]string` is
`Option (List String)`, `none` being the `nil` slice. -/
structure Config where
  ExcludeList : Option (GoMap String (Option (List String)))
  TopologyManagerPolicy : String
  TopologyManagerScope : String
  PodExcludes : Option (GoMap String String)

/-- The zero value `Config{}`. -/
def Config.zero : Config :=
  { ExcludeList := none, TopologyManagerPolicy := "", TopologyManagerScope := "",
    PodExcludes := none }

/-- How `json.Marshal` writes a `[]string`: `null` for the `nil` slice. -/
def encodeStrings : Option (List String) → Node
  | none => .null
  | some l => .seq (l.map Node.str)

/-- How `json.Marshal` writes a `map[string][]string` that is kept. -/
def encodeExcludeList (m : GoMap String (Option (List String))) : Node :=
  .map (m.entries.map fun kv => (kv.1, encodeStrings kv.2))

/-- How `json.Marshal` writes a `map[string]string`: `null` for the `nil` map. -/
def encodeStringMap : Option (GoMap String String) → Node
  | none => .null
  | some m => .map (m.entries.map fun kv => (kv.1, Node.str kv.2))

/-- The members `json.Marshal` writes for a `Config`, by the struct tags of
lines 38-41: `excludeList`, `topologyManagerPolicy` and `topologyManagerScope`
are `omitempty` (left out for a map of length 0 and for the empty string),
`podExcludes` is not.  The keys are listed in the sorted order in which
`JSONToYAML` writes them. -/
def Config.members (c : Config) : List (String × Node) :=
  (match c.ExcludeList with
    | none => []
    | some m => if m.len = 0 then [] else [("excludeList", encodeExcludeList m)])
  ++ [("podExcludes", encodeStringMap c.PodExcludes)]
  ++ (if c.TopologyManagerPolicy = "" then []
      else [("topologyManagerPolicy", Node.str c.TopologyManagerPolicy)])
  ++ (if c.TopologyManagerScope = "" then []
      else [("topologyManagerScope", Node.str c.TopologyManagerScope)])

/-- The document of a `Config` (`json.Marshal`). -/
def Config.toNode (c : Config) : Node := .map c.members

/-- The error of `JSONToYAML` on a document with a refused character. -/
def controlCharactersError : Error :=
  "error converting JSON to YAML: yaml: control characters are not allowed"

/-- The call `yaml.Marshal(conf)`, with the result of `string(data)`: the text
is empty when the library reports an error.  `JSONToYAML` first reads the JSON
document with the YAML reader, which refuses some characters, and then writes
it. -/
def yamlMarshal (Y : YAMLLib) (c : Config) : String × Option Error :=
  if c.toNode.hasChar refusedChar then ("", some controlCharactersError)
  else
    match Y.emit c.toNode with
    | .ok text => (text, none)
    | .error e => ("", some ("error converting JSON to YAML: " ++ e))

/-- Of the members with the same key the last one stays; the order of the
others is kept (a YAML mapping read into a Go map). -/
def lastWins : List (String × Node) → List (String × Node)
  | [] => []
  | (k, v) :: rest =>
    if k ∈ rest.map Prod.fst then lastWins rest else (k, v) :: lastWins rest

/-- Decoding into a Go `string` that holds `cur`: `null` leaves it, a string
replaces it, anything else is a type error and leaves it. -/
def decodeString (cur : String) : Node → String × Option Error
  | .null => (cur, none)
  | .str s => (s, none)
  | .seq _ => (cur, some "json: cannot unmarshal array into Go value of type string")
  | .map _ => (cur, some "json: cannot unmarshal object into Go value of type string")

/-- Decoding the members of an object into a `map[string]string`: each value
is decoded into a fresh `string` and stored under its key. -/
def decodeStringMembers :
    List (String × Node) → GoMap String String → GoMap String String × Option Error
  | [], m => (m, none)
  | (k, v) :: rest, m =>
    let r := decodeString "" v
    let out := decodeStringMembers rest (m.set k r.1)
    (out.1, firstError r.2 out.2)

/-- Decoding into a `map[string]string` that holds `cur`: `null` makes it
`nil`, an object fills it (allocating it when it is `nil`). -/
def decodeStringMap (cur : Option (GoMap String String)) :
    Node → Option (GoMap String String) × Option Error
  | .null => (none, none)
  | .map fields =>
    let out := decodeStringMembers (lastWins fields) (cur.getD GoMap.empty)
    (some out.1, out.2)
  | .str _ => (cur, some "json: cannot unmarshal string into Go value of type map[string]string")
  | .seq _ => (cur, some "json: cannot unmarshal array into Go value of type map[string]string")

/-- Decoding the items of an array into a `[]string`. -/
def decodeStringItems : List Node → List String × Option Error
  | [] => ([], none)
  | v :: rest =>
    let r := decodeString "" v
    let out := decodeStringItems rest
    (r.1 :: out.1, firstError r.2 out.2)

/-- Decoding into a `[]string` that holds `cur`. -/
def decodeStrings (cur : Option (List String)) : Node → Option (List String) × Option Error
  | .null => (none, none)
  | .seq items =>
    let out := decodeStringItems items
    (some out.1, out.2)
  | .str _ => (cur, some "json: cannot unmarshal string into Go value of type []string")
  | .map _ => (cur, some "json: cannot unmarshal object into Go value of type []string")

/-- Decoding the members of an object into a `map[string][]string`. -/
def decodeExcludeMembers : List (String × Node) → GoMap String (Option (List String)) →
    GoMap String (Option (List String)) × Option Error
  | [], m => (m, none)
  | (k, v) :: rest, m =>
    let r := decodeStrings none v
    let out := decodeExcludeMembers rest (m.set k r.1)
    (out.1, firstError r.2 out.2)

/-- Decoding into a `map[string][]string` that holds `cur`. -/
def decodeExcludeList (cur : Option (GoMap String (Option (List String)))) :
    Node → Option (GoMap String (Option (List String))) × Option Error
  | .null => (none, none)
  | .map fields =>
    let out := decodeExcludeMembers (lastWins fields) (cur.getD GoMap.empty)
    (some out.1, out.2)
  | .str _ =>
    (cur, some "json: cannot unmarshal string into Go value of type map[string][]string")
  | .seq _ =>
    (cur, some "json: cannot unmarshal array into Go value of type map[string][]string")

/-- The fields of `Config`. -/
inductive Field where
  | excludeList | topologyManagerPolicy | topologyManagerScope | podExcludes
deriving DecidableEq, Repr

/-- The JSON name of each field, from the struct tags. -/
def fieldNames : List (String × Field) :=
  [("excludeList", .excludeList), ("topologyManagerPolicy", .topologyManagerPolicy),
   ("topologyManagerScope", .topologyManagerScope), ("podExcludes", .podExcludes)]

/-- The letter a character counts as when keys are compared: an ASCII
letter in lower case, and `s` for U+017F and `k` for U+212A, the two other
characters that fold to an ASCII letter. -/
def foldChar (c : Char) : Char :=
  if c.toNat = 0x17F then 's' else if c.toNat = 0x212A then 'k' else c.toLower

/-- Equality of two keys up to the case of their letters. -/
def equalFold (a b : String) : Bool :=
  a.data.map foldChar == b.data.map foldChar

/-- The field a key of the document is decoded into: the field of exactly
that name, else the first one whose name differs only in case; a key that
names no field is skipped. -/
def findField (key : String) : Option Field :=
  match fieldNames.lookup key with
  | some f => some f
  | none => (fieldNames.find? fun nf => equalFold nf.1 key).map Prod.snd

/-- Decoding one member of the top-level object into the `Config`. -/
def decodeMember (c : Config) (key : String) (v : Node) : Config × Option Error :=
  match findField key with
  | none => (c, none)
  | some .excludeList =>
    let r := decodeExcludeList c.ExcludeList v
    ({ c with ExcludeList := r.1 }, r.2)
  | some .topologyManagerPolicy =>
    let r := decodeString c.TopologyManagerPolicy v
    ({ c with TopologyManagerPolicy := r.1 }, r.2)
  | some .topologyManagerScope =>
    let r := decodeString c.TopologyManagerScope v
    ({ c with TopologyManagerScope := r.1 }, r.2)
  | some .podExcludes =>
    let r := decodeStringMap c.PodExcludes v
    ({ c with PodExcludes := r.1 }, r.2)

/-- Put a member into a list of members in key order; a member of the same
key is replaced. -/
def insertMember (k : String) (v : Node) : List (String × Node) → List (String × Node)
  | [] => [(k, v)]
  | (k0, v0) :: rest =>
    if k0 = k then (k, v) :: rest
    else if charsLess k.data k0.data then (k, v) :: (k0, v0) :: rest
    else (k0, v0) :: insertMember k v rest

/-- The members of a mapping as `YAMLToJSON` hands them to `json.Unmarshal`:
of members with the same key the last one stays, and the members come in key
order. -/
def jsonMembers (fields : List (String × Node)) : List (String × Node) :=
  fields.foldl (fun acc kv => insertMember kv.1 kv.2 acc) []

/-- Decoding the members of the top-level object, in order. -/
def decodeMembers : List (String × Node) → Config → Config × Option Error
  | [], c => (c, none)
  | (k, v) :: rest, c =>
    let r := decodeMember c k v
    let out := decodeMembers rest r.1
    (out.1, firstError r.2 out.2)

/-- The call `json.Unmarshal(j, &conf)` on the JSON text that `YAMLToJSON`
writes for the document `n`: `null` leaves `conf` as it is, an object is
decoded member by member in key order, anything else is a type error. -/
def Config.fromNode (c : Config) : Node → Config × Option Error
  | .null => (c, none)
  | .map fields => decodeMembers (jsonMembers fields) c
  | .str _ => (c, some "json: cannot unmarshal string into Go value of type config.Config")
  | .seq _ => (c, some "json: cannot unmarshal array into Go value of type config.Config")

/-- The call `yaml.Unmarshal(data, &conf)`: the new value of `conf` and the
error.  A text the library cannot read leaves `conf` untouched. -/
def yamlUnmarshal (Y : YAMLLib) (data : String) (c : Config) : Config × Option Error :=
  match Y.parse data with
  | .error e => (c, some ("error converting YAML to JSON: " ++ e))
  | .ok n =>
    let r := c.fromNode n
    (r.1, r.2.map fun e => "error unmarshaling JSON: " ++ e)

end config

/-! ## Kubelet configuration (`k8s.io/kubelet/config/v1beta1`) -/

/-- The type `resource.Quantity` (k8s.io/apimachinery, outside the
repository), the quantity of a resource limit.  A quantity is kept in one of
two forms: as an `int64` amount, the number `value * 10 ^ scale` with an
`int64` value and a scale of either sign, or, when it does not fit that form,
as a big decimal, the number `unscaled * 10 ^ (-scale)`.  The text "2048.0"
is the amount `20480` of scale `-1`; a number of 19 digits or more is a big
decimal. -/
inductive Quantity where
  | int64Amount (value : Int) (scale : Int) : Quantity
  | infDecAmount (unscaled : Int) (scale : Int) : Quantity
deriving DecidableEq, Repr

/-- The method `Quantity.AsInt64`, the fast conversion: it answers only for
an `int64` amount whose scale is not negative and whose value times
`10 ^ scale` fits an `int64`; a big decimal and an amount of negative scale
are refused (`none` for `ok == false`), whatever number they stand for. -/
def Quantity.AsInt64 : Quantity → Option Int
  | .infDecAmount _ _ => none
  | .int64Amount value scale =>
    if 0 ≤ scale ∧ -(2 : Int) ^ 63 ≤ value * (10 : Int) ^ scale.toNat
        ∧ value * (10 : Int) ^ scale.toNat < (2 : Int) ^ 63 then
      some (value * (10 : Int) ^ scale.toNat)
    else none

/-- The whole number a decimal `m * 10 ^ e` stands for, when it is a whole
number that fits an `int64`. -/
def exactInt64 (m e : Int) : Option Int :=
  if 0 ≤ e then
    if -(2 : Int) ^ 63 ≤ m * (10 : Int) ^ e.toNat ∧ m * (10 : Int) ^ e.toNat < (2 : Int) ^ 63 then
      some (m * (10 : Int) ^ e.toNat)
    else none
  else if (10 : Int) ^ (-e).toNat ∣ m ∧ -(2 : Int) ^ 63 ≤ m / (10 : Int) ^ (-e).toNat
      ∧ m / (10 : Int) ^ (-e).toNat < (2 : Int) ^ 63 then
    some (m / (10 : Int) ^ (-e).toNat)
  else none

/-- Modelled from the spec: the byte count of a quantity that can "be
represented as an exact integer", whatever form it is kept in; `none` when the
number is not whole or does not fit an `int64`. -/
def Quantity.representable : Quantity → Option Int
  | .int64Amount value scale => exactInt64 value scale
  | .infDecAmount unscaled scale => exactInt64 unscaled (-scale)

/-- The whole number `n` as a quantity. -/
def Quantity.ofInt (n : Int) : Quantity := .int64Amount n 0

/-- The constant `corev1.ResourceMemory`. -/
def ResourceMemory : String := "memory"

/-- One entry of `KubeletConfiguration.ReservedMemory`
(`kubeletconfigv1beta1.MemoryReservation`): the NUMA node (an `int32`) and its
limits, a `v1.ResourceList`, that is a map from resource name to quantity. -/
structure MemoryReservation where
  NumaNode : Int
  Limits : Option (GoMap String Quantity)
deriving DecidableEq

/-- The fields of `kubeletconfigv1beta1.KubeletConfiguration` that the
repository reads; `other` stands for all the remaining ones. -/
structure KubeletConfiguration where
  TopologyManagerPolicy : String
  TopologyManagerScope : String
  ReservedMemory : List MemoryReservation
  other : String
deriving DecidableEq

namespace config

/-- The value of `conf` that `Render` builds before it serializes
(config.go, lines 61-67). -/
def renderConf (klConfig : KubeletConfiguration) (podExcludes : Option (GoMap String String)) :
    Config :=
  let conf : Config :=
    { Config.zero with
      TopologyManagerPolicy := klConfig.TopologyManagerPolicy
      TopologyManagerScope := klConfig.TopologyManagerScope }
  if mapLen podExcludes > 0 then { conf with PodExcludes := podExcludes } else conf

/-- The function `Render` (config.go, lines 60-70).  `klConfig` is the
configuration the pointer refers to (the code dereferences it without a
test). -/
def Render (Y : YAMLLib) (klConfig : KubeletConfiguration)
    (podExcludes : Option (GoMap String String)) : String × Option Error :=
  yamlMarshal Y (renderConf klConfig podExcludes)

/-- The function `Unrender` (config.go, lines 72-76). -/
def Unrender (Y : YAMLLib) (data : String) : Config × Option Error :=
  yamlUnmarshal Y data Config.zero

end config

/-- The top-level members of a YAML text, when the text is a mapping. -/
def topLevelMembers (Y : YAMLLib) (text : String) : Option (List (String × Node)) :=
  match Y.parse text with
  | .ok (.map fields) => some fields
  | _ => none

/-- The top-level keys of a YAML text, when the text is a mapping. -/
def topLevelKeys (Y : YAMLLib) (text : String) : Option (List String) :=
  (topLevelMembers Y text).map fun fields => fields.map Prod.fst

/-- What `ioutil.ReadFile(path)` returns: the content, or an error together
with the answer of `errors.Is(err, os.ErrNotExist)` for it. -/
inductive ReadResult where
  | content (data : String) : ReadResult
  | failure (err : Error) (isNotExist : Bool) : ReadResult
deriving DecidableEq

namespace config

/-- The function `ReadFile` (config.go, lines 44-58); `readFile` is
`ioutil.ReadFile` on the file system at hand.  The warning written to the log
is not part of the result. -/
def ReadFile (Y : YAMLLib) (readFile : String → ReadResult) (configPath : String) :
    Config × Option Error :=
  let conf := Config.zero
  match readFile configPath with
  | .failure err isNotExist => if isNotExist then (conf, none) else (conf, some err)
  | .content data => yamlUnmarshal Y data conf

end config

/-- The entries a `range` over a map value visits; none for the `nil` map. -/
def mapEntries {K V : Type} [DecidableEq K] : Option (GoMap K V) → List (K × V)
  | none => []
  | some m => m.entries

namespace config

/-- The inner loop of `findReservedMemoryFromKubelet` (config.go, lines
113-124) over the limits of one entry, for the NUMA node `numaNode`. -/
def reserveLimits (numaNode : Int) : List (String × Quantity) → GoMap Int Int → GoMap Int Int
  | [], res => res
  | (resName, resQty) :: rest, res =>
    if resName ≠ ResourceMemory then reserveLimits numaNode rest res
    else
      match resQty.AsInt64 with
      | none => reserveLimits numaNode rest res
      | some v => reserveLimits numaNode rest (res.set numaNode v)

/-- The outer loop of `findReservedMemoryFromKubelet` (config.go, lines
112-125), `res` being the map built so far. -/
def reserveEntries : List MemoryReservation → GoMap Int Int → GoMap Int Int
  | [], res => res
  | memRes :: rest, res =>
    reserveEntries rest (reserveLimits memRes.NumaNode (mapEntries memRes.Limits) res)

/-- The function `findReservedMemoryFromKubelet` (config.go, lines 110-127).
The result is an allocated map from NUMA node (`int`) to bytes (`int64`). -/
def findReservedMemoryFromKubelet (klMemRes : List MemoryReservation) : GoMap Int Int :=
  reserveEntries klMemRes GoMap.empty

end config

/-! ## A YAML library to compute with

A small instance of `YAMLLib` that writes a document in YAML flow style, which
is also JSON: `{"podExcludes": null, "topologyManagerScope": "pod"}`.  It
serves wherever a statement needs a concrete library. -/

namespace flowYAML

/-- The characters of a string inside double quotes. -/
def escape : List Char → List Char
  | [] => []
  | c :: cs =>
    if c = '"' then '\\' :: '"' :: escape cs
    else if c = '\\' then '\\' :: '\\' :: escape cs
    else if c = '\n' then '\\' :: 'n' :: escape cs
    else c :: escape cs

/-- The character an escape sequence stands for. -/
def unescape (c : Char) : Option Char :=
  if c = 'n' then some '\n' else if c = '"' then some '"' else if c = '\\' then some '\\' else none

/-- Read the inside of a double-quoted string up to its closing quote: the
string and what follows the quote.  The flag says that the character before
was a backslash. -/
def readChars : Bool → List Char → Option (List Char × List Char)
  | _, [] => none
  | true, c :: rest =>
    match unescape c, readChars false rest with
    | some u, some (s, r) => some (u :: s, r)
    | _, _ => none
  | false, c :: rest =>
    if c = '"' then some ([], rest)
    else if c = '\\' then readChars true rest
    else
      match readChars false rest with
      | some (s, r) => some (c :: s, r)
      | none => none

/-- Read a double-quoted string whose opening quote has been consumed. -/
def readString (l : List Char) : Option (List Char × List Char) := readChars false l

/-- A string in double quotes. -/
def quote (s : String) : List Char := '"' :: escape s.data ++ ['"']

mutual
/-- The text of a document. -/
def emitNode : Node → List Char
  | .null => ['n', 'u', 'l', 'l']
  | .str s => quote s
  | .seq [] => ['[', ']']
  | .seq (x :: xs) => '[' :: emitNode x ++ emitItems xs
  | .map [] => ['\x7b', '\x7d']
  | .map ((k, v) :: fs) => '\x7b' :: quote k ++ ':' :: ' ' :: emitNode v ++ emitFields fs
/-- The items of a sequence after the first, and the closing bracket. -/
def emitItems : List Node → List Char
  | [] => [']']
  | x :: xs => ',' :: ' ' :: emitNode x ++ emitItems xs
/-- The members of a mapping after the first, and the closing brace. -/
def emitFields : List (String × Node) → List Char
  | [] => ['\x7d']
  | (k, v) :: fs => ',' :: ' ' :: quote k ++ ':' :: ' ' :: emitNode v ++ emitFields fs
end

mutual
/-- Read one document from the front of the input; `fuel` bounds the depth of
the calls. -/
def parseNode : Nat → List Char → Option (Node × List Char)
  | 0, _ => none
  | _ + 1, [] => none
  | fuel + 1, c :: rest =>
    if c = 'n' then
      match rest with
      | 'u' :: 'l' :: 'l' :: rest2 => some (.null, rest2)
      | _ => none
    else if c = '"' then
      match readString rest with
      | some (s, r) => some (.str (String.mk s), r)
      | none => none
    else if c = '[' then
      match rest with
      | ']' :: rest2 => some (.seq [], rest2)
      | _ =>
        match parseNode fuel rest with
        | none => none
        | some (x, r) =>
          match parseItems fuel r with
          | none => none
          | some (xs, r2) => some (.seq (x :: xs), r2)
    else if c = '\x7b' then
      match rest with
      | '\x7d' :: rest2 => some (.map [], rest2)
      | _ =>
        match parseField fuel rest with
        | none => none
        | some (f, r) =>
          match parseFields fuel r with
          | none => none
          | some (fs, r2) => some (.map (f :: fs), r2)
    else none
/-- Read the items of a sequence after the first. -/
def parseItems : Nat → List Char → Option (List Node × List Char)
  | 0, _ => none
  | fuel + 1, input =>
    match input with
    | ']' :: rest => some ([], rest)
    | ',' :: ' ' :: rest =>
      match parseNode fuel rest with
      | none => none
      | some (x, r) =>
        match parseItems fuel r with
        | none => none
        | some (xs, r2) => some (x :: xs, r2)
    | _ => none
/-- Read one member of a mapping, `"key": value`. -/
def parseField : Nat → List Char → Option ((String × Node) × List Char)
  | 0, _ => none
  | fuel + 1, input =>
    match input with
    | '"' :: rest =>
      match readString rest with
      | some (k, ':' :: ' ' :: r) =>
        match parseNode fuel r with
        | none => none
        | some (v, r2) => some ((String.mk k, v), r2)
      | _ => none
    | _ => none
/-- Read the members of a mapping after the first. -/
def parseFields : Nat → List Char → Option (List (String × Node) × List Char)
  | 0, _ => none
  | fuel + 1, input =>
    match input with
    | '\x7d' :: rest => some ([], rest)
    | ',' :: ' ' :: rest =>
      match parseField fuel rest with
      | none => none
      | some (f, r) =>
        match parseFields fuel r with
        | none => none
        | some (fs, r2) => some (f :: fs, r2)
    | _ => none
end


/-- Write a document; this library writes every document. -/
def emit (n : Node) : Except Error String := .ok (String.mk (emitNode n))

/-- Read a text: one document and nothing after it; the empty text is the
`null` document. -/
def parse (text : String) : Except Error Node :=
  match text.data with
  | [] => .ok .null
  | c :: rest =>
    match parseNode (text.length + 1) (c :: rest) with
    | some (n, []) => .ok n
    | _ => .error "yaml: did not find expected node content"

/-- The library. -/
def library : YAMLLib := { emit := emit, parse := parse }

end flowYAML

/-! ## Cluster objects (`internal/objects/objects.go`) -/

/-- The `MatchLabels` part of a `metav1.LabelSelector`. -/
structure LabelSelector where
  MatchLabels : Option (GoMap String String)
deriving DecidableEq

/-- The type `nrov1alpha1.NodeGroupConfig`, the optional override of a node
group; its content plays no role here. -/
structure NodeGroupConfig where
  raw : String
deriving DecidableEq

/-- The type `nrov1alpha1.NodeGroup`. -/
structure NodeGroup where
  MachineConfigPoolSelector : Option LabelSelector
  Config : Option NodeGroupConfig
deriving DecidableEq

/-- The type `nrov1alpha1.NUMAResourcesOperatorSpec`. -/
structure NUMAResourcesOperatorSpec where
  NodeGroups : List NodeGroup
deriving DecidableEq

/-- The type `nrov1alpha1.NUMAResourcesOperator`. -/
structure NUMAResourcesOperator where
  typeMeta : TypeMeta
  objectMeta : ObjectMeta
  Spec : NUMAResourcesOperatorSpec
deriving DecidableEq

/-- The type `machineconfigv1.MachineConfigPoolSpec`. -/
structure MachineConfigPoolSpec where
  MachineConfigSelector : Option LabelSelector
  NodeSelector : Option LabelSelector
deriving DecidableEq

/-- The type `machineconfigv1.MachineConfigPool`. -/
structure MachineConfigPool where
  typeMeta : TypeMeta
  objectMeta : ObjectMeta
  Spec : MachineConfigPoolSpec
deriving DecidableEq

/-- The type `runtime.RawExtension`: raw bytes. -/
structure RawExtension where
  Raw : String
deriving DecidableEq

/-- The type `machineconfigv1.KubeletConfigSpec`. -/
structure KubeletConfigSpec where
  MachineConfigPoolSelector : Option LabelSelector
  KubeletConfig : Option RawExtension
deriving DecidableEq

/-- The type `machineconfigv1.KubeletConfig`. -/
structure KubeletConfig where
  typeMeta : TypeMeta
  objectMeta : ObjectMeta
  Spec : KubeletConfigSpec
deriving DecidableEq

namespace objects

/-- The loop of `NewNUMAResourcesOperator` (objects.go, lines 31-36): one
node group per selector, appended in order. -/
def appendNodeGroups : List (Option LabelSelector) → List NodeGroup → List NodeGroup
  | [], nodeGroups => nodeGroups
  | selector :: rest, nodeGroups =>
    appendNodeGroups rest (nodeGroups ++ [{ MachineConfigPoolSelector := selector, Config := none }])

/-- The function `NewNUMAResourcesOperator` (objects.go, lines 30-50);
`groupVersion` is the text of `nrov1alpha1.GroupVersion.String()`. -/
def NewNUMAResourcesOperator (groupVersion : String) (name : String)
    (labelSelectors : List (Option LabelSelector)) : NUMAResourcesOperator :=
  { typeMeta := { Kind := "NUMAResourcesOperator", APIVersion := groupVersion }
    objectMeta := { Name := name, Namespace := "", Labels := none }
    Spec := { NodeGroups := appendNodeGroups labelSelectors [] } }

/-- The function `NewMachineConfigPool` (objects.go, lines 88-103);
`groupVersion` is the text of `machineconfigv1.GroupVersion.String()`. -/
def NewMachineConfigPool (groupVersion : String) (name : String)
    (labels : Option (GoMap String String))
    (machineConfigSelector nodeSelector : Option LabelSelector) : MachineConfigPool :=
  { typeMeta := { Kind := "MachineConfigPool", APIVersion := groupVersion }
    objectMeta := { Name := name, Namespace := "", Labels := labels }
    Spec := { MachineConfigSelector := machineConfigSelector, NodeSelector := nodeSelector } }

/-- The function `NewKubeletConfigWithData` (objects.go, lines 110-127). -/
def NewKubeletConfigWithData (groupVersion : String) (name : String)
    (labels : Option (GoMap String String)) (machineConfigSelector : Option LabelSelector)
    (data : String) : KubeletConfig :=
  { typeMeta := { Kind := "KubeletConfig", APIVersion := groupVersion }
    objectMeta := { Name := name, Namespace := "", Labels := labels }
    Spec := { MachineConfigPoolSelector := machineConfigSelector,
              KubeletConfig := some { Raw := data } } }

end objects

/-! ## The reconciler (`controllers`)

The file that defines `KubeletConfigReconciler.Reconcile` is not among the
sources; only its test is.  The model below follows section 4.4 of the
specification step by step. -/

namespace controllers

/-- The type `reconcile.Request`: the namespaced name of the changed object. -/
structure Request where
  Namespace : String
  Name : String
deriving DecidableEq

/-- The type `reconcile.Result`; a duration counts nanoseconds. -/
structure Result where
  Requeue : Bool
  RequeueAfter : Nat
deriving DecidableEq, Repr

/-- The zero value `reconcile.Result{}`: no requeue. -/
def Result.zero : Result := { Requeue := false, RequeueAfter := 0 }

/-- A signal given to the event recorder: the object it refers to, the
severity, the reason tag and the message. -/
structure Event where
  object : String
  severity : String
  reason : String
  message : String
deriving DecidableEq, Repr

/-- Modelled from the spec: the store behind the reconciler (sections 3 and 6)
with the declarations, the worker pools, the kubelet-configuration objects and
the published artifacts it holds, and the events recorded so far.  The store
is the in-memory one of the test: its operations do not fail. -/
structure Cluster where
  declarations : List NUMAResourcesOperator
  pools : List MachineConfigPool
  kubeletConfigs : List KubeletConfig
  artifacts : List ConfigMap
  events : List Event

/-- Modelled from the spec: what the reconciler is built with.  The constants
`kubeletConfigRetryPeriod` ("a fixed non-zero requeue duration") and the name
of the singleton declaration, the function `GetComponentName` ("name is
deterministically derived from the declaration's name and the pool's name"),
the decoder of the kubelet payload and the source of the pod excludes are not
among the sources and are taken as given. -/
structure Reconciler where
  Namespace : String
  yaml : YAMLLib
  declarationName : String
  kubeletConfigRetryPeriod : Nat
  retryPeriod_pos : 0 < kubeletConfigRetryPeriod
  GetComponentName : String → String → String
  decodeKubeletConfig : String → Except Error KubeletConfiguration
  podExcludes : NUMAResourcesOperator → Option (GoMap String String)

/-- Modelled from the spec: label-selector matching (section 4.3), "all
selector key/value pairs must be present and equal on the pool's labels".  An
absent selector matches nothing. -/
def selectorMatches (selector : Option LabelSelector) (labels : Option (GoMap String String)) :
    Bool :=
  match selector with
  | none => false
  | some sel => (mapEntries sel.MatchLabels).all fun kv => mapGet labels kv.1 == some kv.2

/-- Modelled from the spec: `GroupResolver.Resolve` (section 4.3), the first
node group of the declaration whose selector matches the pool's labels;
nothing when the declaration is absent or no entry matches. -/
def Resolve (declaration : Option NUMAResourcesOperator) (pool : MachineConfigPool) :
    Option NodeGroup :=
  match declaration with
  | none => none
  | some d =>
    d.Spec.NodeGroups.find? fun g =>
      selectorMatches g.MachineConfigPoolSelector pool.objectMeta.Labels

/-- Modelled from the spec: the upsert of step 4, "create-if-absent, else
update-in-place", keyed by namespace and name. -/
def upsert (cm : ConfigMap) : List ConfigMap → List ConfigMap
  | [] => [cm]
  | old :: rest =>
    if old.objectMeta.Namespace = cm.objectMeta.Namespace
        ∧ old.objectMeta.Name = cm.objectMeta.Name then cm :: rest
    else old :: upsert cm rest

/-- Modelled from the spec: the payload of a kubelet-configuration object,
"raw bytes, conventionally JSON"; empty when the extension is absent. -/
def payload (kc : KubeletConfig) : String :=
  match kc.Spec.KubeletConfig with
  | none => ""
  | some r => r.Raw

/-- Modelled from the spec: step 4 of section 4.4 for the matched pools in
turn.  For a pool with a matching node group the payload is decoded, rendered,
built into an artifact and upserted; the first failure stops the loop, and
what was published before it stays. -/
def publish (r : Reconciler) (declaration : NUMAResourcesOperator) (kc : KubeletConfig) :
    List MachineConfigPool → List ConfigMap → List ConfigMap × Option Error
  | [], artifacts => (artifacts, none)
  | pool :: rest, artifacts =>
    match Resolve (some declaration) pool with
    | none => publish r declaration kc rest artifacts
    | some _ =>
      match r.decodeKubeletConfig (payload kc) with
      | .error e => (artifacts, some e)
      | .ok klConfig =>
        match config.Render r.yaml klConfig (r.podExcludes declaration) with
        | (_, some e) => (artifacts, some e)
        | (text, none) =>
          let cm := config.CreateConfigMap r.Namespace
            (r.GetComponentName declaration.objectMeta.Name pool.objectMeta.Name) text
          publish r declaration kc rest (upsert cm artifacts)

/-- Modelled from the spec: the signal of step 5, an event with a reason tag
that refers to the declaration. -/
def signal (declaration : NUMAResourcesOperator) (reason message : String) : Event :=
  { object := declaration.objectMeta.Name, severity := "Normal", reason := reason,
    message := message }

/-- Modelled from the spec: `Reconcile` (section 4.4).
1. Lookup: the object named in the request; absent, nothing to do.
2. Resolve pool: the pools whose labels the object's selector matches.
3. Resolve declaration: absent, return success with a retry after the fixed
   period.
4. Extract and render, for each matched pool.
5. Signal the outcome: `ProcessOK`, or `ProcessFailed` with the error returned.
The result is what `Reconcile` returns and the cluster it leaves. -/
def Reconcile (r : Reconciler) (c : Cluster) (req : Request) :
    (Result × Option Error) × Cluster :=
  match c.kubeletConfigs.find? fun kc =>
      kc.objectMeta.Namespace = req.Namespace ∧ kc.objectMeta.Name = req.Name with
  | none => ((Result.zero, none), c)
  | some kc =>
    let pools := c.pools.filter fun p =>
      selectorMatches kc.Spec.MachineConfigPoolSelector p.objectMeta.Labels
    match c.declarations.find? fun d => d.objectMeta.Name = r.declarationName with
    | none => (({ Requeue := false, RequeueAfter := r.kubeletConfigRetryPeriod }, none), c)
    | some declaration =>
      match publish r declaration kc pools c.artifacts with
      | (artifacts, some e) =>
        ((Result.zero, some e),
          { c with
            artifacts := artifacts,
            events := c.events ++ [signal declaration "ProcessFailed" e] })
      | (artifacts, none) =>
        ((Result.zero, none),
          { c with
            artifacts := artifacts,
            events := c.events ++ [signal declaration "ProcessOK" ""] })

end controllers

/-! # Properties -/

/-! ## The flow-style library reads back what it writes -/

namespace flowYAML

theorem readString_escape (s rest : List Char) :
    readString (escape s ++ '"' :: rest) = some (s, rest) := by
  unfold readString
  induction s with
  | nil => simp [escape, readChars]
  | cons c cs ih =>
    by_cases h1 : c = '"'
    · subst h1; simp [escape, readChars, unescape, ih]
    · by_cases h2 : c = '\\'
      · subst h2; simp [escape, readChars, unescape, ih]
      · by_cases h3 : c = '\n'
        · subst h3; simp [escape, readChars, unescape, ih]
        · simp [escape, readChars, h1, h2, h3, ih]

theorem quote_length_pos (s : String) : 0 < (quote s).length := by simp [quote]

theorem parseNode_null (fuel : Nat) (rest : List Char) :
    parseNode (fuel + 1) ('n' :: 'u' :: 'l' :: 'l' :: rest) = some (.null, rest) := by
  simp [parseNode]

theorem parseNode_str (fuel : Nat) (s : String) (rest : List Char) :
    parseNode (fuel + 1) (quote s ++ rest) = some (.str s, rest) := by
  simp [parseNode, quote, readString_escape]

theorem parseNode_seq_nil (fuel : Nat) (rest : List Char) :
    parseNode (fuel + 1) ('[' :: ']' :: rest) = some (.seq [], rest) := by
  simp [parseNode]

theorem parseNode_map_nil (fuel : Nat) (rest : List Char) :
    parseNode (fuel + 1) ('\x7b' :: '\x7d' :: rest) = some (.map [], rest) := by
  simp [parseNode]

theorem parseNode_seq_cons (fuel : Nat) (c : Char) (l : List Char) (h : c ≠ ']') :
    parseNode (fuel + 1) ('[' :: c :: l) =
      match parseNode fuel (c :: l) with
      | none => none
      | some (x, r) =>
        match parseItems fuel r with
        | none => none
        | some (xs, r2) => some (.seq (x :: xs), r2) := by
  simp [parseNode, h]


theorem parseNode_map_cons (fuel : Nat) (l : List Char) :
    parseNode (fuel + 1) ('\x7b' :: '"' :: l) =
      match parseField fuel ('"' :: l) with
      | none => none
      | some (f, r) =>
        match parseFields fuel r with
        | none => none
        | some (fs, r2) => some (.map (f :: fs), r2) := by
  simp [parseNode]

theorem parseItems_nil (fuel : Nat) (rest : List Char) :
    parseItems (fuel + 1) (']' :: rest) = some ([], rest) := by
  simp [parseItems]

theorem parseItems_cons (fuel : Nat) (l : List Char) :
    parseItems (fuel + 1) (',' :: ' ' :: l) =
      match parseNode fuel l with
      | none => none
      | some (x, r) =>
        match parseItems fuel r with
        | none => none
        | some (xs, r2) => some (x :: xs, r2) := by
  simp [parseItems]

theorem parseFields_nil (fuel : Nat) (rest : List Char) :
    parseFields (fuel + 1) ('\x7d' :: rest) = some ([], rest) := by
  simp [parseFields]

theorem parseFields_cons (fuel : Nat) (l : List Char) :
    parseFields (fuel + 1) (',' :: ' ' :: l) =
      match parseField fuel l with
      | none => none
      | some (f, r) =>
        match parseFields fuel r with
        | none => none
        | some (fs, r2) => some (f :: fs, r2) := by
  simp [parseFields]

theorem parseField_quote (fuel : Nat) (k : String) (l : List Char) :
    parseField (fuel + 1) (quote k ++ ':' :: ' ' :: l) =
      match parseNode fuel l with
      | none => none
      | some (v, r2) => some ((k, v), r2) := by
  simp [parseField, quote, readString_escape]

theorem emitNode_head (n : Node) : ∃ c l, emitNode n = c :: l ∧ c ≠ ']' := by
  cases n with
  | null => exact ⟨_, _, by rw [emitNode], by decide⟩
  | str s => exact ⟨_, _, by rw [emitNode, quote]; rfl, by decide⟩
  | seq items =>
    cases items with
    | nil => exact ⟨_, _, by rw [emitNode], by decide⟩
    | cons x xs => exact ⟨'[', emitNode x ++ emitItems xs, by simp [emitNode], by decide⟩
  | map fields =>
    cases fields with
    | nil => exact ⟨_, _, by rw [emitNode], by decide⟩
    | cons f fs =>
      exact ⟨'\x7b', quote f.1 ++ ':' :: ' ' :: (emitNode f.2 ++ emitFields fs),
        by simp [emitNode], by decide⟩

mutual
theorem parseNode_emitNode : ∀ (n : Node) (fuel : Nat) (rest : List Char),
    (emitNode n).length ≤ fuel → parseNode fuel (emitNode n ++ rest) = some (n, rest)
  | .null, fuel, rest, h => by
    cases fuel with
    | zero => simp [emitNode] at h
    | succ f => simpa [emitNode] using parseNode_null f rest
  | .str s, fuel, rest, h => by
    cases fuel with
    | zero => simp [emitNode, quote] at h
    | succ f => simpa [emitNode] using parseNode_str f s rest
  | .seq [], fuel, rest, h => by
    cases fuel with
    | zero => simp [emitNode] at h
    | succ f => simpa [emitNode] using parseNode_seq_nil f rest
  | .seq (x :: xs), fuel, rest, h => by
    cases fuel with
    | zero => simp [emitNode] at h
    | succ f =>
      simp only [emitNode, List.length_cons, List.length_append] at h
      obtain ⟨c, l, hcl, hc⟩ := emitNode_head x
      have hx := parseNode_emitNode x f (emitItems xs ++ rest) (by omega)
      have hxs := parseItems_emitItems xs f rest (by omega)
      have hq : emitNode (.seq (x :: xs)) ++ rest
          = '[' :: (emitNode x ++ (emitItems xs ++ rest)) := by
        simp [emitNode]
      rw [hq]
      rw [hcl] at hx ⊢
      rw [List.cons_append] at hx ⊢
      rw [parseNode_seq_cons f c _ hc, hx]
      simp [hxs]
  | .map [], fuel, rest, h => by
    cases fuel with
    | zero => simp [emitNode] at h
    | succ f => simpa [emitNode] using parseNode_map_nil f rest
  | .map ((k, v) :: fs), fuel, rest, h => by
    cases fuel with
    | zero => simp [emitNode] at h
    | succ f =>
      simp only [emitNode, List.length_cons, List.length_append] at h
      cases f with
      | zero => have := quote_length_pos k; omega
      | succ g =>
        have hv := parseNode_emitNode v g (emitFields fs ++ rest) (by omega)
        have hfs := parseFields_emitFields fs (g + 1) rest (by omega)
        have hq : emitNode (.map ((k, v) :: fs)) ++ rest
            = '\x7b' :: '"' :: (escape k.data ++ '"' :: ':' :: ' ' :: (emitNode v ++ (emitFields fs ++ rest))) := by
          simp [emitNode, quote]
        have hf : ('"' :: (escape k.data ++ '"' :: ':' :: ' ' :: (emitNode v ++ (emitFields fs ++ rest))))
            = quote k ++ ':' :: ' ' :: (emitNode v ++ (emitFields fs ++ rest)) := by
          simp [quote]
        rw [hq, parseNode_map_cons, hf, parseField_quote, hv]
        simp [hfs]
theorem parseItems_emitItems : ∀ (xs : List Node) (fuel : Nat) (rest : List Char),
    (emitItems xs).length ≤ fuel → parseItems fuel (emitItems xs ++ rest) = some (xs, rest)
  | [], fuel, rest, h => by
    cases fuel with
    | zero => simp [emitItems] at h
    | succ f => simpa [emitItems] using parseItems_nil f rest
  | x :: xs, fuel, rest, h => by
    cases fuel with
    | zero => simp [emitItems] at h
    | succ f =>
      simp only [emitItems, List.length_cons, List.length_append] at h
      have hx := parseNode_emitNode x f (emitItems xs ++ rest) (by omega)
      have hxs := parseItems_emitItems xs f rest (by omega)
      have hq : emitItems (x :: xs) ++ rest
          = ',' :: ' ' :: (emitNode x ++ (emitItems xs ++ rest)) := by
        simp [emitItems]
      rw [hq, parseItems_cons, hx]
      simp [hxs]
theorem parseFields_emitFields : ∀ (fs : List (String × Node)) (fuel : Nat) (rest : List Char),
    (emitFields fs).length ≤ fuel → parseFields fuel (emitFields fs ++ rest) = some (fs, rest)
  | [], fuel, rest, h => by
    cases fuel with
    | zero => simp [emitFields] at h
    | succ f => simpa [emitFields] using parseFields_nil f rest
  | (k, v) :: fs, fuel, rest, h => by
    cases fuel with
    | zero => simp [emitFields] at h
    | succ f =>
      simp only [emitFields, List.length_cons, List.length_append] at h
      cases f with
      | zero => have := quote_length_pos k; omega
      | succ g =>
        have hv := parseNode_emitNode v g (emitFields fs ++ rest) (by omega)
        have hfs := parseFields_emitFields fs (g + 1) rest (by omega)
        have hq : emitFields ((k, v) :: fs) ++ rest
            = ',' :: ' ' :: (quote k ++ ':' :: ' ' :: (emitNode v ++ (emitFields fs ++ rest))) := by
          simp [emitFields]
        rw [hq, parseFields_cons, parseField_quote, hv]
        simp [hfs]
end

theorem emitNode_length_pos (n : Node) : 0 < (emitNode n).length := by
  obtain ⟨c, l, h, _⟩ := emitNode_head n
  simp [h]

theorem parse_emit (n : Node) : parse (String.mk (emitNode n)) = .ok n := by
  have h := parseNode_emitNode n ((emitNode n).length + 1) [] (by omega)
  simp only [List.append_nil] at h
  obtain ⟨c, l, hcl, _⟩ := emitNode_head n
  rw [hcl] at h
  simp only [parse, hcl, String.length]
  rw [h]

/-- The flow-style library writes every document and reads it back. -/
theorem library_readsBack : library.ReadsBack := by
  intro n _ _
  exact ⟨String.mk (emitNode n), rfl, parse_emit n⟩

end flowYAML

/-! ## The characters of a document -/

mutual
theorem Node.hasChar_mono (p q : Char → Bool) (hpq : ∀ c, p c = true → q c = true) :
    ∀ n : Node, n.hasChar q = false → n.hasChar p = false
  | .null, _ => by simp [Node.hasChar]
  | .str s, h => by
    simp only [Node.hasChar, List.any_eq_false] at h ⊢
    intro c hc hp
    exact h c hc (hpq c hp)
  | .seq items, h => by
    simp only [Node.hasChar] at h ⊢
    exact Node.itemsHaveChar_mono p q hpq items h
  | .map fields, h => by
    simp only [Node.hasChar] at h ⊢
    exact Node.fieldsHaveChar_mono p q hpq fields h
theorem Node.itemsHaveChar_mono (p q : Char → Bool) (hpq : ∀ c, p c = true → q c = true) :
    ∀ l : List Node, Node.itemsHaveChar q l = false → Node.itemsHaveChar p l = false
  | [], _ => by simp [Node.itemsHaveChar]
  | x :: xs, h => by
    simp only [Node.itemsHaveChar, Bool.or_eq_false_iff] at h ⊢
    exact ⟨Node.hasChar_mono p q hpq x h.1, Node.itemsHaveChar_mono p q hpq xs h.2⟩
theorem Node.fieldsHaveChar_mono (p q : Char → Bool) (hpq : ∀ c, p c = true → q c = true) :
    ∀ l : List (String × Node), Node.fieldsHaveChar q l = false → Node.fieldsHaveChar p l = false
  | [], _ => by simp [Node.fieldsHaveChar]
  | (k, v) :: fs, h => by
    simp only [Node.fieldsHaveChar, Bool.or_eq_false_iff] at h ⊢
    refine ⟨⟨?_, Node.hasChar_mono p q hpq v h.1.2⟩, Node.fieldsHaveChar_mono p q hpq fs h.2⟩
    have hk := h.1.1
    simp only [List.any_eq_false] at hk ⊢
    intro c hc hp
    exact hk c hc (hpq c hp)
end

theorem refused_unkept (c : Char) (h : refusedChar c = true) : unkeptChar c = true := by
  simp [unkeptChar, h]

theorem Node.not_refused_of_kept (n : Node) (h : n.hasChar unkeptChar = false) :
    n.hasChar refusedChar = false :=
  Node.hasChar_mono refusedChar unkeptChar refused_unkept n h

/-! ## The codec: `Render` and `Unrender` -/

namespace config

theorem firstError_none (e : Option Error) : firstError none e = e := by
  cases e <;> rfl

theorem lastWins_of_nodup :
    ∀ l : List (String × Node), (l.map Prod.fst).Nodup → lastWins l = l
  | [], _ => rfl
  | (k, v) :: rest, h => by
    simp only [List.map_cons, List.nodup_cons] at h
    simp [lastWins, h.1, lastWins_of_nodup rest h.2]


/-- A string the library keeps: none of its characters is refused or folded. -/
def keptString (s : String) : Bool := !s.data.any unkeptChar

/-- A pod-excludes mapping the library keeps: all its keys and values are kept
strings. -/
def keptMap (m : Option (GoMap String String)) : Bool :=
  (mapEntries m).all fun kv => keptString kv.1 && keptString kv.2

/-- Decoding the members written for a string map appends them to the map
being filled, as long as no key repeats. -/
theorem decodeStringMembers_encode :
    ∀ (l : List (String × String)) (acc : GoMap String String),
      ((acc.entries ++ l).map Prod.fst).Nodup →
      (decodeStringMembers (l.map fun kv => (kv.1, Node.str kv.2)) acc).1.entries
          = acc.entries ++ l
        ∧ (decodeStringMembers (l.map fun kv => (kv.1, Node.str kv.2)) acc).2 = none
  | [], acc, _ => by simp [decodeStringMembers]
  | (k, v) :: rest, acc, h => by
    have hk : k ∉ acc.entries.map Prod.fst := by
      intro hmem
      rw [List.map_append, List.nodup_append] at h
      exact h.2.2 hmem (by simp)
    have hset : (acc.set k v).entries = acc.entries ++ [(k, v)] :=
      setEntry_of_not_mem k v acc.entries hk
    have h2 : (((acc.set k v).entries ++ rest).map Prod.fst).Nodup := by
      rw [hset]; simpa using h
    have ih := decodeStringMembers_encode rest (acc.set k v) h2
    simp only [List.map_cons, decodeStringMembers, decodeString, firstError_none]
    rw [hset] at ih
    simpa using ih

theorem decodeStringMap_encode (m : Option (GoMap String String)) :
    decodeStringMap none (encodeStringMap m) = (m, none) := by
  cases m with
  | none => rfl
  | some g =>
    have h := decodeStringMembers_encode g.entries GoMap.empty (by simpa [GoMap.empty] using g.nodup)
    have hl : lastWins (g.entries.map fun kv => (kv.1, Node.str kv.2))
        = g.entries.map fun kv => (kv.1, Node.str kv.2) := by
      apply lastWins_of_nodup
      have hn := g.nodup
      simpa [List.map_map, Function.comp_def] using hn
    simp only [encodeStringMap, decodeStringMap, Option.getD_none, hl]
    have h1 : (decodeStringMembers (g.entries.map fun kv => (kv.1, Node.str kv.2)) GoMap.empty).1 = g :=
      GoMap.ext_entries (by simpa [GoMap.empty] using h.1)
    rw [h1, h.2]

theorem findField_podExcludes : findField "podExcludes" = some .podExcludes := by decide
theorem findField_policy : findField "topologyManagerPolicy" = some .topologyManagerPolicy := by
  decide
theorem findField_scope : findField "topologyManagerScope" = some .topologyManagerScope := by
  decide

theorem jsonMembers_one (x : Node) :
    jsonMembers [("podExcludes", x)] = [("podExcludes", x)] := rfl

theorem jsonMembers_policy (x y : Node) :
    jsonMembers [("podExcludes", x), ("topologyManagerPolicy", y)]
      = [("podExcludes", x), ("topologyManagerPolicy", y)] := by
  simp [jsonMembers, insertMember, charsLess]

theorem jsonMembers_scope (x z : Node) :
    jsonMembers [("podExcludes", x), ("topologyManagerScope", z)]
      = [("podExcludes", x), ("topologyManagerScope", z)] := by
  simp [jsonMembers, insertMember, charsLess]

theorem jsonMembers_both (x y z : Node) :
    jsonMembers [("podExcludes", x), ("topologyManagerPolicy", y), ("topologyManagerScope", z)]
      = [("podExcludes", x), ("topologyManagerPolicy", y), ("topologyManagerScope", z)] := by
  simp [jsonMembers, insertMember, charsLess]

/-- A `Config` without exclude list is read back from its own document. -/
theorem fromNode_toNode (c : Config) (h : c.ExcludeList = none) :
    Config.zero.fromNode c.toNode = (c, none) := by
  obtain ⟨el, p, s, pe⟩ := c
  simp only at h
  subst h
  by_cases hp : p = "" <;> by_cases hs : s = "" <;>
    simp [Config.toNode, Config.members, Config.fromNode, decodeMembers, decodeMember,
      jsonMembers_one, jsonMembers_policy, jsonMembers_scope, jsonMembers_both,
      findField_podExcludes, findField_policy, findField_scope, decodeStringMap_encode,
      decodeString, Config.zero, firstError, hp, hs]


theorem fieldsHaveChar_strings (p : Char → Bool) :
    ∀ l : List (String × String),
      Node.fieldsHaveChar p (l.map fun kv => (kv.1, Node.str kv.2))
        = l.any fun kv => kv.1.data.any p || kv.2.data.any p
  | [] => rfl
  | (k, v) :: rest => by
    simp [Node.fieldsHaveChar, Node.hasChar, fieldsHaveChar_strings p rest, Bool.or_assoc]

theorem hasChar_encodeStringMap (p : Char → Bool) (m : Option (GoMap String String)) :
    (encodeStringMap m).hasChar p
      = (mapEntries m).any fun kv => kv.1.data.any p || kv.2.data.any p := by
  cases m with
  | none => rfl
  | some g => simp [encodeStringMap, Node.hasChar, fieldsHaveChar_strings, mapEntries]

theorem keptMap_iff (m : Option (GoMap String String)) (h : keptMap m = true) :
    ((mapEntries m).any fun kv => kv.1.data.any unkeptChar || kv.2.data.any unkeptChar)
      = false := by
  simp only [keptMap, keptString, List.all_eq_true, Bool.and_eq_true, Bool.not_eq_true'] at h
  rw [List.any_eq_false]
  intro kv hkv
  have := h kv hkv
  simp [this.1, this.2]

/-- The document of a `Config` made of kept strings holds no character the
library refuses or folds. -/
theorem toNode_kept (c : Config) (hel : c.ExcludeList = none)
    (hp : keptString c.TopologyManagerPolicy = true)
    (hs : keptString c.TopologyManagerScope = true) (hm : keptMap c.PodExcludes = true) :
    c.toNode.hasChar unkeptChar = false := by
  obtain ⟨el, p, s, pe⟩ := c
  simp only at hel hp hs hm
  subst hel
  have hpe := keptMap_iff pe hm
  have hp2 : p.data.any unkeptChar = false := by simpa [keptString] using hp
  have hs2 : s.data.any unkeptChar = false := by simpa [keptString] using hs
  have k1 : "podExcludes".data.any unkeptChar = false := by decide
  have k2 : "topologyManagerPolicy".data.any unkeptChar = false := by decide
  have k3 : "topologyManagerScope".data.any unkeptChar = false := by decide
  by_cases hpe0 : p = "" <;> by_cases hse0 : s = "" <;>
    simp [Config.toNode, Config.members, Node.hasChar, Node.fieldsHaveChar,
      hasChar_encodeStringMap, hpe, hp2, hs2, k1, k2, k3, hpe0, hse0]

theorem fieldsInKeyOrder_strings :
    ∀ l : List (String × String),
      Node.fieldsInKeyOrder (l.map fun kv => (kv.1, Node.str kv.2)) = true
  | [] => rfl
  | (k, v) :: rest => by
    simp [Node.fieldsInKeyOrder, Node.inKeyOrder, fieldsInKeyOrder_strings rest]

/-- The pod excludes are listed in key order (every map has one such
listing). -/
def ascendingMap (m : Option (GoMap String String)) : Bool :=
  keysAscend ((mapEntries m).map Prod.fst)

theorem inKeyOrder_encodeStringMap (m : Option (GoMap String String))
    (h : ascendingMap m = true) : (encodeStringMap m).inKeyOrder = true := by
  cases m with
  | none => rfl
  | some g =>
    have hk : keysAscend (g.entries.map Prod.fst) = true := by
      simpa [ascendingMap, mapEntries] using h
    simp [encodeStringMap, Node.inKeyOrder, fieldsInKeyOrder_strings, List.map_map,
      Function.comp_def, hk]

/-- The document of a `Config` whose pod excludes are listed in key order is
in key order. -/
theorem toNode_inKeyOrder (c : Config) (hel : c.ExcludeList = none)
    (hm : ascendingMap c.PodExcludes = true) : c.toNode.inKeyOrder = true := by
  obtain ⟨el, p, s, pe⟩ := c
  simp only at hel hm
  subst hel
  have hpe := inKeyOrder_encodeStringMap pe hm
  have k1 : charsLess "podExcludes".data "topologyManagerPolicy".data = true := by decide
  have k2 : charsLess "podExcludes".data "topologyManagerScope".data = true := by decide
  have k3 : charsLess "topologyManagerPolicy".data "topologyManagerScope".data = true := by
    decide
  by_cases hpe0 : p = "" <;> by_cases hse0 : s = "" <;>
    simp [Config.toNode, Config.members, Node.inKeyOrder, Node.fieldsInKeyOrder, keysAscend,
      hpe, k1, k2, k3, hpe0, hse0]

theorem yamlMarshal_of_refused (Y : YAMLLib) (c : Config)
    (h : c.toNode.hasChar refusedChar = true) :
    yamlMarshal Y c = ("", some controlCharactersError) := by
  simp [yamlMarshal, h]

/-- When `yaml.Marshal` reports no error its text is what the library writes
for the document of the `Config`. -/
theorem yamlMarshal_emit (Y : YAMLLib) (c : Config) (h : (yamlMarshal Y c).2 = none) :
    Y.emit c.toNode = .ok (yamlMarshal Y c).1 := by
  unfold yamlMarshal at h ⊢
  by_cases hr : c.toNode.hasChar refusedChar = true
  · simp [hr] at h
  · simp only [hr, Bool.false_eq_true, if_false] at h ⊢
    cases he : Y.emit c.toNode with
    | ok text => rfl
    | error e => simp [he] at h

/-- With a library that reads back what it writes, `yaml.Marshal` of a
`Config` made of kept strings succeeds and its text reads back as the document
of the `Config`. -/
theorem yamlMarshal_parse (Y : YAMLLib) (hY : Y.ReadsBack) (c : Config)
    (hk : c.toNode.hasChar unkeptChar = false) (ho : c.toNode.inKeyOrder = true) :
    (yamlMarshal Y c).2 = none ∧ Y.parse (yamlMarshal Y c).1 = .ok c.toNode := by
  obtain ⟨text, hemit, hparse⟩ := hY c.toNode hk ho
  have hr := Node.not_refused_of_kept c.toNode hk
  simp [yamlMarshal, hr, hemit, hparse]

theorem Unrender_yamlMarshal (Y : YAMLLib) (hY : Y.ReadsBack) (c : Config)
    (h : c.ExcludeList = none) (hk : c.toNode.hasChar unkeptChar = false)
    (ho : c.toNode.inKeyOrder = true) :
    Unrender Y (yamlMarshal Y c).1 = (c, none) := by
  have hp := (yamlMarshal_parse Y hY c hk ho).2
  simp [Unrender, yamlUnmarshal, hp, fromNode_toNode c h]

theorem renderConf_excludeList (kl : KubeletConfiguration) (e : Option (GoMap String String)) :
    (renderConf kl e).ExcludeList = none := by
  unfold renderConf
  split <;> rfl

theorem renderConf_of_pos (kl : KubeletConfiguration) (e : Option (GoMap String String))
    (h : 0 < mapLen e) :
    renderConf kl e = Config.mk none kl.TopologyManagerPolicy kl.TopologyManagerScope e := by
  simp [renderConf, h, Config.zero]

theorem renderConf_of_zero (kl : KubeletConfiguration) (e : Option (GoMap String String))
    (h : mapLen e = 0) :
    renderConf kl e = Config.mk none kl.TopologyManagerPolicy kl.TopologyManagerScope none := by
  simp [renderConf, h, Config.zero]

theorem keptMap_none : keptMap none = true := rfl

/-- C1, amended. Round trip of the codec: for every non-empty policy `p`,
non-empty scope `s` and non-empty pod-excludes mapping `e` (its entries listed
in key order) whose strings hold no character of U+007F to U+009F, U+FFFE or
U+FFFF, and a YAML library that reads back what it writes for such documents,
`Render` succeeds and `Unrender` of its text succeeds and returns exactly
`Config{TopologyManagerPolicy: p, TopologyManagerScope: s, PodExcludes: e}`
with a `nil` `ExcludeList`. -/
theorem Unrender_Render_roundtrip (Y : YAMLLib) (hY : Y.ReadsBack)
    (kl : KubeletConfiguration) (e : GoMap String String)
    (_hp : kl.TopologyManagerPolicy ≠ "") (_hs : kl.TopologyManagerScope ≠ "")
    (he : 0 < e.len)
    (hkp : keptString kl.TopologyManagerPolicy = true)
    (hks : keptString kl.TopologyManagerScope = true)
    (hke : keptMap (some e) = true)
    (hasc : ascendingMap (some e) = true) :
    (Render Y kl (some e)).2 = none
    ∧ Unrender Y (Render Y kl (some e)).1
        = (Config.mk none kl.TopologyManagerPolicy kl.TopologyManagerScope (some e), none) := by
  have hc := renderConf_of_pos kl (some e) he
  have hk : (renderConf kl (some e)).toNode.hasChar unkeptChar = false := by
    rw [hc]; exact toNode_kept _ rfl hkp hks hke
  have ho : (renderConf kl (some e)).toNode.inKeyOrder = true := by
    rw [hc]; exact toNode_inKeyOrder _ rfl hasc
  refine ⟨(yamlMarshal_parse Y hY _ hk ho).1, ?_⟩
  have h := Unrender_yamlMarshal Y hY (renderConf kl (some e)) (renderConf_excludeList kl _)
    hk ho
  rw [hc] at h
  simpa [Render, hc] using h

theorem Unrender_Render_roundtrip_witness :
    (Render flowYAML.library ⟨"single-numa-node", "pod", [], ""⟩
        (some (GoMap.single "ns" "pod"))).2 = none
    ∧ Unrender flowYAML.library
        (Render flowYAML.library ⟨"single-numa-node", "pod", [], ""⟩
          (some (GoMap.single "ns" "pod"))).1
        = (Config.mk none "single-numa-node" "pod" (some (GoMap.single "ns" "pod")), none) :=
  Unrender_Render_roundtrip flowYAML.library flowYAML.library_readsBack
    ⟨"single-numa-node", "pod", [], ""⟩ (GoMap.single "ns" "pod") (by decide) (by decide)
    (by decide) (by decide) (by decide) (by decide) (by decide)

/-- C1, as stated, fails: for the non-empty policy U+007F `Render` returns
an empty text and an error, whatever the YAML library writes, and `Unrender`
of the empty text gives the zero `Config`, not the policy. -/
theorem Render_refuses_delete_character :
    (∀ Y : YAMLLib,
        Render Y ⟨"\x7f", "pod", [], ""⟩ (some (GoMap.single "ns" "pod"))
          = ("", some controlCharactersError))
    ∧ Unrender flowYAML.library
        (Render flowYAML.library ⟨"\x7f", "pod", [], ""⟩ (some (GoMap.single "ns" "pod"))).1
        = (Config.zero, none)
    ∧ Unrender flowYAML.library
        (Render flowYAML.library ⟨"\x7f", "pod", [], ""⟩ (some (GoMap.single "ns" "pod"))).1
        ≠ (Config.mk none "\x7f" "pod" (some (GoMap.single "ns" "pod")), none) := by
  have h : ∀ Y : YAMLLib,
      Render Y ⟨"\x7f", "pod", [], ""⟩ (some (GoMap.single "ns" "pod"))
        = ("", some controlCharactersError) := by
    intro Y
    exact yamlMarshal_of_refused Y _ (by decide)
  refine ⟨h, ?_, ?_⟩
  · rw [h]; rfl
  · rw [h]
    intro heq
    have hpol := congrArg (fun r => r.1.TopologyManagerPolicy) heq
    revert hpol
    decide


/-- C2, amended. When `Render` is called with an empty pod-excludes mapping
(`nil`, or allocated with no entry) and a policy and a scope that hold no
character of U+007F to U+009F, U+FFFE or U+FFFF, with a YAML library that
reads back what it writes for such documents, `Unrender` of the rendered text
returns a `Config` whose `PodExcludes` is `nil`, not an empty mapping, and
policy and scope are reproduced. -/
theorem Unrender_Render_empty_excludes (Y : YAMLLib) (hY : Y.ReadsBack)
    (kl : KubeletConfiguration) (e : Option (GoMap String String)) (he : mapLen e = 0)
    (hkp : keptString kl.TopologyManagerPolicy = true)
    (hks : keptString kl.TopologyManagerScope = true) :
    (Render Y kl e).2 = none
    ∧ Unrender Y (Render Y kl e).1
        = (Config.mk none kl.TopologyManagerPolicy kl.TopologyManagerScope none, none)
    ∧ (Unrender Y (Render Y kl e).1).1.PodExcludes ≠ some GoMap.empty := by
  have hc := renderConf_of_zero kl e he
  have hk : (renderConf kl e).toNode.hasChar unkeptChar = false := by
    rw [hc]; exact toNode_kept _ rfl hkp hks keptMap_none
  have ho : (renderConf kl e).toNode.inKeyOrder = true := by
    rw [hc]; exact toNode_inKeyOrder _ rfl rfl
  have h := Unrender_yamlMarshal Y hY (renderConf kl e) (renderConf_excludeList kl _) hk ho
  rw [hc] at h
  have h2 : Unrender Y (Render Y kl e).1
      = (Config.mk none kl.TopologyManagerPolicy kl.TopologyManagerScope none, none) := by
    simpa [Render, hc] using h
  exact ⟨(yamlMarshal_parse Y hY _ hk ho).1, h2, by rw [h2]; simp⟩

theorem Unrender_Render_empty_excludes_witness :
    (Render flowYAML.library ⟨"single-numa-node", "pod", [], ""⟩ (some GoMap.empty)).2 = none
    ∧ Unrender flowYAML.library
        (Render flowYAML.library ⟨"single-numa-node", "pod", [], ""⟩ (some GoMap.empty)).1
        = (Config.mk none "single-numa-node" "pod" none, none)
    ∧ (Unrender flowYAML.library
        (Render flowYAML.library ⟨"single-numa-node", "pod", [], ""⟩
          (some GoMap.empty)).1).1.PodExcludes
        ≠ some GoMap.empty :=
  Unrender_Render_empty_excludes flowYAML.library flowYAML.library_readsBack
    ⟨"single-numa-node", "pod", [], ""⟩ (some GoMap.empty) (by decide) (by decide) (by decide)

/-- C2, as stated, fails: with a `nil` pod-excludes mapping and the policy
U+007F `Render` returns an empty text and an error, and `Unrender` of that
text does not reproduce the policy. -/
theorem Render_empty_excludes_refuses_delete_character :
    (∀ Y : YAMLLib,
        Render Y ⟨"\x7f", "pod", [], ""⟩ none = ("", some controlCharactersError))
    ∧ (Unrender flowYAML.library
        (Render flowYAML.library ⟨"\x7f", "pod", [], ""⟩ none).1).1.TopologyManagerPolicy = ""
    ∧ (Unrender flowYAML.library
        (Render flowYAML.library ⟨"\x7f", "pod", [], ""⟩ none).1).1.TopologyManagerPolicy
        ≠ "\x7f" := by
  have h : ∀ Y : YAMLLib,
      Render Y ⟨"\x7f", "pod", [], ""⟩ none = ("", some controlCharactersError) := by
    intro Y
    exact yamlMarshal_of_refused Y _ (by decide)
  refine ⟨h, ?_, ?_⟩
  · rw [h]; rfl
  · rw [h]; decide

/-- When `Render` reports no error, its text is what the library writes for
the mapping with the members of the `Config` it built. -/
theorem Render_emit (Y : YAMLLib) (kl : KubeletConfiguration)
    (e : Option (GoMap String String)) (hok : (Render Y kl e).2 = none) :
    Y.emit (Node.map (renderConf kl e).members) = .ok (Render Y kl e).1 :=
  yamlMarshal_emit Y (renderConf kl e) hok

/-- C7, as stated, fails: with a `nil` pod-excludes mapping, every text that
`Render` returns for the policy `single-numa-node` and the scope `pod` is what
the library writes for a mapping with the key `podExcludes`; read back, the
text has that key. -/
theorem Render_empty_excludes_has_podExcludes_key :
    (∀ (Y : YAMLLib) (text : String),
        Render Y ⟨"single-numa-node", "pod", [], ""⟩ none = (text, none) →
        Y.emit (Node.map [("podExcludes", Node.null),
          ("topologyManagerPolicy", Node.str "single-numa-node"),
          ("topologyManagerScope", Node.str "pod")]) = .ok text)
    ∧ (Render flowYAML.library ⟨"single-numa-node", "pod", [], ""⟩ none).2 = none
    ∧ topLevelKeys flowYAML.library
        (Render flowYAML.library ⟨"single-numa-node", "pod", [], ""⟩ none).1
      = some ["podExcludes", "topologyManagerPolicy", "topologyManagerScope"]
    ∧ ¬ (∀ keys, topLevelKeys flowYAML.library
          (Render flowYAML.library ⟨"single-numa-node", "pod", [], ""⟩ none).1 = some keys →
          "podExcludes" ∉ keys) := by
  refine ⟨?_, by decide, by decide, ?_⟩
  · intro Y text h
    have hok : (Render Y ⟨"single-numa-node", "pod", [], ""⟩ none).2 = none := by rw [h]
    have := Render_emit Y ⟨"single-numa-node", "pod", [], ""⟩ none hok
    rw [h] at this
    exact this
  · intro h
    exact h ["podExcludes", "topologyManagerPolicy", "topologyManagerScope"] (by decide)
      (by decide)

/-- C7, amended. When the pod-excludes mapping is `nil` or has no entries
and `Render` returns no error, the text it returns is what the library writes
for a mapping that carries the key `podExcludes` exactly once, with the value
`null`: the mapping is left out, the key is not. -/
theorem Render_empty_excludes_null (Y : YAMLLib)
    (kl : KubeletConfiguration) (e : Option (GoMap String String)) (he : mapLen e = 0)
    (hok : (Render Y kl e).2 = none) :
    ∃ fields, Y.emit (Node.map fields) = .ok (Render Y kl e).1
      ∧ fields.filter (fun kv => kv.1 = "podExcludes") = [("podExcludes", Node.null)] := by
  refine ⟨_, Render_emit Y kl e hok, ?_⟩
  rw [renderConf_of_zero kl e he]
  by_cases hp : kl.TopologyManagerPolicy = "" <;> by_cases hs : kl.TopologyManagerScope = "" <;>
    simp [Config.members, encodeStringMap, hp, hs]

theorem Render_empty_excludes_null_witness :
    ∃ fields, flowYAML.library.emit (Node.map fields)
          = .ok (Render flowYAML.library ⟨"single-numa-node", "pod", [], ""⟩ none).1
        ∧ fields.filter (fun kv => kv.1 = "podExcludes") = [("podExcludes", Node.null)] :=
  Render_empty_excludes_null flowYAML.library ⟨"single-numa-node", "pod", [], ""⟩ none
    (by decide) (by decide)

/-- C8, as stated, fails: for the policy U+007F `Render` returns an empty
text and an error, whatever the YAML library writes, and the empty text has no
top-level key. -/
theorem Render_refused_has_no_keys :
    (∀ Y : YAMLLib,
        Render Y ⟨"\x7f", "", [], ""⟩ (some (GoMap.single "ns" "pod"))
          = ("", some controlCharactersError))
    ∧ topLevelKeys flowYAML.library
        (Render flowYAML.library ⟨"\x7f", "", [], ""⟩ (some (GoMap.single "ns" "pod"))).1
      = none := by
  have h : ∀ Y : YAMLLib,
      Render Y ⟨"\x7f", "", [], ""⟩ (some (GoMap.single "ns" "pod"))
        = ("", some controlCharactersError) := by
    intro Y
    exact yamlMarshal_of_refused Y _ (by decide)
  refine ⟨h, ?_⟩
  rw [h]; rfl

/-- C8, amended. Field presence in the persisted format: whenever `Render`
returns no error, its text is what the library writes for a mapping whose keys
are `podExcludes` (always), `topologyManagerPolicy` iff the policy is
non-empty and `topologyManagerScope` iff the scope is non-empty, each once;
`excludeList` is never among them. -/
theorem Render_top_level_keys (Y : YAMLLib)
    (kl : KubeletConfiguration) (e : Option (GoMap String String))
    (hok : (Render Y kl e).2 = none) :
    ∃ fields, Y.emit (Node.map fields) = .ok (Render Y kl e).1
      ∧ (∀ k, k ∈ fields.map Prod.fst ↔
          (k = "podExcludes"
            ∨ (k = "topologyManagerPolicy" ∧ kl.TopologyManagerPolicy ≠ "")
            ∨ (k = "topologyManagerScope" ∧ kl.TopologyManagerScope ≠ "")))
      ∧ "podExcludes" ∈ fields.map Prod.fst
      ∧ "excludeList" ∉ fields.map Prod.fst
      ∧ (fields.map Prod.fst).Nodup := by
  refine ⟨(renderConf kl e).members, Render_emit Y kl e hok, ?_⟩
  have hx := renderConf_excludeList kl e
  have hpol : (renderConf kl e).TopologyManagerPolicy = kl.TopologyManagerPolicy := by
    unfold renderConf; split <;> rfl
  have hsc : (renderConf kl e).TopologyManagerScope = kl.TopologyManagerScope := by
    unfold renderConf; split <;> rfl
  by_cases hp : kl.TopologyManagerPolicy = "" <;>
    by_cases hs : kl.TopologyManagerScope = "" <;>
    simp [Config.members, hx, hpol, hsc, hp, hs]

theorem Render_top_level_keys_witness :
    ∃ fields, flowYAML.library.emit (Node.map fields)
          = .ok (Render flowYAML.library ⟨"single-numa-node", "", [], ""⟩
              (some (GoMap.single "ns" "pod"))).1
      ∧ (∀ k, k ∈ fields.map Prod.fst ↔
          (k = "podExcludes"
            ∨ (k = "topologyManagerPolicy" ∧ "single-numa-node" ≠ "")
            ∨ (k = "topologyManagerScope" ∧ "" ≠ "")))
      ∧ "podExcludes" ∈ fields.map Prod.fst
      ∧ "excludeList" ∉ fields.map Prod.fst
      ∧ (fields.map Prod.fst).Nodup :=
  Render_top_level_keys flowYAML.library ⟨"single-numa-node", "", [], ""⟩
    (some (GoMap.single "ns" "pod")) (by decide)

end config

/-! ## The artifact: `CreateConfigMap` and `UnpackConfigMap` -/

namespace config

/-- Two strings that start with different texts of the same length differ. -/
theorem string_ne_of_heads (a b : String) (p q s t : List Char) (hlen : p.length = q.length)
    (hpq : p ≠ q) (ha : a.data = p ++ s) (hb : b.data = q ++ t) : a ≠ b := by
  intro h
  rw [h, hb] at ha
  exact hpq (List.append_inj ha hlen.symm).1.symm

theorem nilConfigMapError_ne_missingDataError (c : ConfigMap) :
    nilConfigMapError ≠ missingDataError c :=
  string_ne_of_heads _ _ ['n'] ['m'] "il config map".data
    ("issing data in config map ".data ++ (c.objectMeta.Namespace.data
      ++ ("/".data ++ c.objectMeta.Name.data)))
    rfl (by decide) rfl (by simp [missingDataError, String.data_append])

theorem nilConfigMapError_ne_missingKeyError (c : ConfigMap) :
    nilConfigMapError ≠ missingKeyError c :=
  string_ne_of_heads _ _ ['n'] ['m'] "il config map".data
    ("issing expected key \"config.yaml\" in config map ".data ++ (c.objectMeta.Namespace.data
      ++ ("/".data ++ c.objectMeta.Name.data)))
    rfl (by decide) rfl (by simp [missingKeyError, quotedKey, String.data_append])

theorem missingDataError_ne_missingKeyError (c d : ConfigMap) :
    missingDataError c ≠ missingKeyError d :=
  string_ne_of_heads _ _ "missing d".data "missing e".data
    ("ata in config map ".data ++ (c.objectMeta.Namespace.data
      ++ ("/".data ++ c.objectMeta.Name.data)))
    ("xpected key \"config.yaml\" in config map ".data ++ (d.objectMeta.Namespace.data
      ++ ("/".data ++ d.objectMeta.Name.data)))
    rfl (by decide)
    (by simp [missingDataError, String.data_append])
    (by simp [missingKeyError, quotedKey, String.data_append])

/-- C3. `UnpackConfigMap` fails exactly in three cases, each with its own
error: the config map reference is `nil`, its `Data` is `nil`, or `Data` has
no key "config.yaml"; the three errors are pairwise different whatever the
names involved.  In every other case it returns `Data["config.yaml"]`
unchanged with no error. -/
theorem UnpackConfigMap_cases (cm : Option ConfigMap) :
    (cm = none → UnpackConfigMap cm = ("", some nilConfigMapError))
    ∧ (∀ c, cm = some c → c.Data = none → UnpackConfigMap cm = ("", some (missingDataError c)))
    ∧ (∀ c data, cm = some c → c.Data = some data → data.get Key = none →
        UnpackConfigMap cm = ("", some (missingKeyError c)))
    ∧ (∀ c data v, cm = some c → c.Data = some data → data.get Key = some v →
        UnpackConfigMap cm = (v, none))
    ∧ ((UnpackConfigMap cm).2 ≠ none ↔
        (cm = none ∨ ∃ c, cm = some c ∧ (c.Data = none ∨ mapGet c.Data Key = none)))
    ∧ (∀ c d : ConfigMap, nilConfigMapError ≠ missingDataError c
        ∧ nilConfigMapError ≠ missingKeyError d
        ∧ missingDataError c ≠ missingKeyError d) := by
  refine ⟨?_, ?_, ?_, ?_, ?_, ?_⟩
  · rintro rfl; rfl
  · rintro c rfl h; simp [UnpackConfigMap, h]
  · rintro c data rfl h1 h2; simp [UnpackConfigMap, h1, h2]
  · rintro c data v rfl h1 h2; simp [UnpackConfigMap, h1, h2]
  · cases cm with
    | none => simp [UnpackConfigMap]
    | some c =>
      cases hd : c.Data with
      | none => simp [UnpackConfigMap, hd]
      | some data =>
        cases hk : data.get Key with
        | none => simp [UnpackConfigMap, hd, hk, mapGet]
        | some v => simp [UnpackConfigMap, hd, hk, mapGet]
  · intro c d
    exact ⟨nilConfigMapError_ne_missingDataError c, nilConfigMapError_ne_missingKeyError d,
      missingDataError_ne_missingKeyError c d⟩

theorem UnpackConfigMap_cases_witness :
    UnpackConfigMap (some (CreateConfigMap "ns" "name" "")) = ("", none)
    ∧ UnpackConfigMap (some ⟨⟨"ConfigMap", "v1"⟩, ⟨"name", "ns", none⟩, some GoMap.empty⟩)
        = ("", some "missing expected key \"config.yaml\" in config map ns/name")
    ∧ UnpackConfigMap (some ⟨⟨"ConfigMap", "v1"⟩, ⟨"name", "ns", none⟩, none⟩)
        = ("", some "missing data in config map ns/name")
    ∧ UnpackConfigMap none = ("", some "nil config map") :=
  ⟨(UnpackConfigMap_cases (some (CreateConfigMap "ns" "name" ""))).2.2.2.1
      (CreateConfigMap "ns" "name" "") (GoMap.single Key "") "" rfl rfl (by decide),
    (UnpackConfigMap_cases (some ⟨⟨"ConfigMap", "v1"⟩, ⟨"name", "ns", none⟩, some GoMap.empty⟩)).2.2.1
      ⟨⟨"ConfigMap", "v1"⟩, ⟨"name", "ns", none⟩, some GoMap.empty⟩ GoMap.empty rfl rfl
      (by decide),
    (UnpackConfigMap_cases (some ⟨⟨"ConfigMap", "v1"⟩, ⟨"name", "ns", none⟩, none⟩)).2.1
      ⟨⟨"ConfigMap", "v1"⟩, ⟨"name", "ns", none⟩, none⟩ rfl rfl,
    (UnpackConfigMap_cases none).1 rfl⟩

/-- C6. `CreateConfigMap` returns, for every namespace, name and text, a
config map with exactly that namespace and name whose `Data` holds exactly one
key, "config.yaml", mapped to the given text. -/
theorem CreateConfigMap_spec (ns name configData : String) :
    (CreateConfigMap ns name configData).objectMeta.Namespace = ns
    ∧ (CreateConfigMap ns name configData).objectMeta.Name = name
    ∧ ∃ data, (CreateConfigMap ns name configData).Data = some data
        ∧ data.keys = ["config.yaml"]
        ∧ data.len = 1
        ∧ data.get "config.yaml" = some configData :=
  ⟨rfl, rfl, GoMap.single Key configData, rfl, rfl, rfl, by simp [GoMap.get, GoMap.single, Key]⟩

end config

/-! ## Memory reservations: `findReservedMemoryFromKubelet` -/

namespace config

/-- The bytes an entry reserves: its limit of resource type "memory", when
there is one and `AsInt64` accepts it. -/
def memoryValue (r : MemoryReservation) : Option Int :=
  (mapGet r.Limits ResourceMemory).bind Quantity.AsInt64

/-- Two entries that target the same NUMA node with the same memory limit;
their limits of other resource types are free. -/
def sameMemoryLimit (a b : MemoryReservation) : Prop :=
  a.NumaNode = b.NumaNode ∧ mapGet a.Limits ResourceMemory = mapGet b.Limits ResourceMemory

/-- The last write: the value for NUMA node `n` is the one of the last entry,
in list order, that targets `n` with a memory limit that `AsInt64` accepts. -/
def lastReserved (entries : List MemoryReservation) (n : Int) : Option Int :=
  entries.reverse.findSome? fun r => if r.NumaNode = n then memoryValue r else none

theorem reserveLimits_no_memory (node : Int) :
    ∀ (l : List (String × Quantity)) (res : GoMap Int Int),
      ResourceMemory ∉ l.map Prod.fst → reserveLimits node l res = res
  | [], _, _ => rfl
  | (k, q) :: rest, res, h => by
    simp only [List.map_cons, List.mem_cons, not_or] at h
    have hk : k ≠ ResourceMemory := fun e => h.1 e.symm
    simp [reserveLimits, hk, reserveLimits_no_memory node rest res h.2]

theorem reserveLimits_eq (node : Int) :
    ∀ (l : List (String × Quantity)) (res : GoMap Int Int), (l.map Prod.fst).Nodup →
      reserveLimits node l res
        = match (l.lookup ResourceMemory).bind Quantity.AsInt64 with
          | some v => res.set node v
          | none => res
  | [], _, _ => rfl
  | (k, q) :: rest, res, h => by
    simp only [List.map_cons, List.nodup_cons] at h
    by_cases hk : k = ResourceMemory
    · subst hk
      simp only [reserveLimits, ne_eq, not_true_eq_false, if_false, List.lookup_cons_self,
        Option.some_bind]
      cases hq : q.AsInt64 with
      | none => simp [reserveLimits_no_memory node rest res h.1]
      | some v => simp [reserveLimits_no_memory node rest _ h.1]
    · have hb : (ResourceMemory == k) = false := by
        simpa using fun e : ResourceMemory = k => hk e.symm
      simp only [reserveLimits, ne_eq, hk, not_false_eq_true, if_true, List.lookup_cons, hb]
      exact reserveLimits_eq node rest res h.2

/-- What one entry does to the map: a write when it reserves memory, nothing
otherwise. -/
theorem reserveLimits_entry (r : MemoryReservation) (res : GoMap Int Int) :
    reserveLimits r.NumaNode (mapEntries r.Limits) res
      = match memoryValue r with
        | some v => res.set r.NumaNode v
        | none => res := by
  cases hl : r.Limits with
  | none => simp [mapEntries, memoryValue, mapGet, hl, reserveLimits]
  | some m =>
    have h := reserveLimits_eq r.NumaNode m.entries res m.nodup
    simpa [mapEntries, memoryValue, mapGet, hl, GoMap.get] using h

theorem reserveEntries_congr :
    ∀ (xs ys : List MemoryReservation) (res : GoMap Int Int),
      List.Forall₂ sameMemoryLimit xs ys → reserveEntries xs res = reserveEntries ys res
  | [], [], _, _ => rfl
  | x :: xs, y :: ys, res, h => by
    rw [List.forall₂_cons] at h
    obtain ⟨⟨hn, hm⟩, ht⟩ := h
    have hv : memoryValue x = memoryValue y := by simp [memoryValue, hm]
    simp only [reserveEntries]
    rw [reserveLimits_entry x res, reserveLimits_entry y res, hv, hn]
    exact reserveEntries_congr xs ys _ ht

theorem lookup_setEntry (k n : Int) (v : Int) :
    ∀ l : List (Int × Int),
      (setEntry k v l).lookup n = if k = n then some v else l.lookup n
  | [] => by
    by_cases h : k = n
    · simp [setEntry, h]
    · have hb : (n == k) = false := by simpa using fun e : n = k => h e.symm
      simp [setEntry, List.lookup_cons, h, hb]
  | (k0, v0) :: rest => by
    by_cases h0 : k0 = k
    · subst h0
      by_cases h : k0 = n
      · subst h; simp [setEntry]
      · have hb : (n == k0) = false := by simpa using fun e : n = k0 => h e.symm
        simp [setEntry, List.lookup_cons, h, hb]
    · by_cases h1 : n = k0
      · subst h1
        have : ¬ k = n := fun e => h0 e.symm
        simp [setEntry, h0, this]
      · have hb : (n == k0) = false := by simpa using h1
        simp [setEntry, h0, List.lookup_cons, hb, lookup_setEntry k n v rest]

theorem get_set (m : GoMap Int Int) (k n v : Int) :
    (m.set k v).get n = if k = n then some v else m.get n :=
  lookup_setEntry k n v m.entries

theorem get_reserveEntries (n : Int) :
    ∀ (l : List MemoryReservation) (res : GoMap Int Int),
      (reserveEntries l res).get n = (lastReserved l n).or (res.get n)
  | [], res => by simp [reserveEntries, lastReserved]
  | r :: rest, res => by
    rw [reserveEntries, get_reserveEntries n rest, reserveLimits_entry]
    simp only [lastReserved, List.reverse_cons, List.findSome?_append, List.findSome?_cons,
      List.findSome?_nil]
    cases h1 : List.findSome? (fun r => if r.NumaNode = n then memoryValue r else none)
        rest.reverse with
    | some v => simp
    | none =>
      cases hv : memoryValue r with
      | none => simp
      | some v =>
        by_cases hn : r.NumaNode = n
        · simp [get_set, hn]
        · simp [get_set, hn]


theorem reserveEntries_append (xs ys : List MemoryReservation) :
    ∀ res : GoMap Int Int,
      reserveEntries (xs ++ ys) res = reserveEntries ys (reserveEntries xs res) := by
  induction xs with
  | nil => intro res; rfl
  | cons x xs ih => intro res; simp [reserveEntries, ih]

theorem findReserved_append_of_none (entries : List MemoryReservation) (r : MemoryReservation)
    (h : memoryValue r = none) :
    findReservedMemoryFromKubelet (entries ++ [r]) = findReservedMemoryFromKubelet entries := by
  simp [findReservedMemoryFromKubelet, reserveEntries_append, reserveEntries,
    reserveLimits_entry, h]

/-- The last write, spelled out: `lastReserved entries n` is `v` exactly when
some entry targets `n` with the representable memory limit `v` and no entry
after it targets `n` with a representable memory limit. -/
theorem lastReserved_eq_some_iff (entries : List MemoryReservation) (n v : Int) :
    lastReserved entries n = some v ↔
      ∃ before r after, entries = before ++ r :: after
        ∧ r.NumaNode = n ∧ memoryValue r = some v
        ∧ ∀ x ∈ after, x.NumaNode = n → memoryValue x = none := by
  unfold lastReserved
  rw [List.findSome?_eq_some_iff]
  constructor
  · rintro ⟨l1, a, l2, hl, ha, hnone⟩
    refine ⟨l2.reverse, a, l1.reverse, ?_, ?_, ?_, ?_⟩
    · have := congrArg List.reverse hl
      simpa using this
    · by_contra hne; simp [hne] at ha
    · by_cases hn : a.NumaNode = n
      · simpa [hn] using ha
      · simp [hn] at ha
    · intro x hx hxn
      have := hnone x (by simpa using hx)
      simpa [hxn] using this
  · rintro ⟨before, r, after, hl, hn, hv, hnone⟩
    refine ⟨after.reverse, r, before.reverse, ?_, ?_, ?_⟩
    · rw [hl]; simp
    · simp [hn, hv]
    · intro x hx
      by_cases hxn : x.NumaNode = n
      · simpa [hxn] using hnone x (by simpa using hx) hxn
      · simp [hxn]

theorem lookup_eq_none_iff_not_mem (n : Int) :
    ∀ l : List (Int × Int), l.lookup n = none ↔ n ∉ l.map Prod.fst
  | [] => by simp
  | (k, v) :: rest => by
    by_cases h : n = k
    · subst h; simp
    · have hb : (n == k) = false := by simpa using h
      simp [List.lookup_cons, hb, h, lookup_eq_none_iff_not_mem n rest]

/-- C4. `findReservedMemoryFromKubelet` considers only limits of resource
type "memory": two lists of entries that agree, entry by entry, on the NUMA
node and on the memory limit give the same result whatever their other limits
are; an entry without memory limit adds and changes nothing; and the entries
`{node 0: memory=1024, node 1: cpu=4}` give exactly `{0: 1024}`.  The function
returns a map and no error. -/
theorem findReserved_only_memory (xs ys : List MemoryReservation)
    (h : List.Forall₂ sameMemoryLimit xs ys) :
    findReservedMemoryFromKubelet xs = findReservedMemoryFromKubelet ys
    ∧ (∀ r : MemoryReservation, mapGet r.Limits ResourceMemory = none →
        findReservedMemoryFromKubelet (xs ++ [r]) = findReservedMemoryFromKubelet xs)
    ∧ findReservedMemoryFromKubelet
        [⟨0, some (GoMap.single "memory" (Quantity.ofInt 1024))⟩,
         ⟨1, some (GoMap.single "cpu" (Quantity.ofInt 4))⟩] = GoMap.single 0 1024 := by
  refine ⟨reserveEntries_congr xs ys _ h, ?_, by decide⟩
  intro r hr
  exact findReserved_append_of_none xs r (by simp [memoryValue, hr])

theorem findReserved_only_memory_witness :
    findReservedMemoryFromKubelet
        [⟨0, some (GoMap.single "memory" (Quantity.ofInt 1024))⟩,
         ⟨1, some (GoMap.single "cpu" (Quantity.ofInt 4))⟩]
      = findReservedMemoryFromKubelet
        [⟨0, some ⟨[("hugepages-2Mi", Quantity.ofInt 2), ("memory", Quantity.ofInt 1024)],
            by decide⟩⟩,
         ⟨1, none⟩] :=
  (findReserved_only_memory _ _
    (List.Forall₂.cons ⟨rfl, by decide⟩ (List.Forall₂.cons ⟨rfl, by decide⟩ List.Forall₂.nil))).1

/-- What `AsInt64` answers is the exact value of the quantity. -/
theorem AsInt64_representable (q : Quantity) (v : Int) (h : q.AsInt64 = some v) :
    q.representable = some v := by
  cases q with
  | infDecAmount u e => simp [Quantity.AsInt64] at h
  | int64Amount value scale =>
    simp only [Quantity.AsInt64] at h
    split at h
    · rename_i hc
      simp only [Option.some.injEq] at h
      subst h
      simp only [Quantity.representable, exactInt64, hc.1, if_true, hc.2.1, hc.2.2, and_self]
    · simp at h

/-- The claim in its own words: the value for NUMA node `n` is the one of the
last entry, in list order, that targets `n` with a memory limit that is
exactly representable as an `int64`. -/
def lastRepresentable (entries : List MemoryReservation) (n : Int) : Option Int :=
  entries.reverse.findSome? fun r =>
    if r.NumaNode = n then (mapGet r.Limits ResourceMemory).bind Quantity.representable
    else none

/-- C5, as stated, fails: for the entries `{node 0: memory=1024}` and then
`{node 0: memory=2048.0}`, the second quantity is exactly 2048 but is kept
with scale -1, `AsInt64` refuses it, and the result keeps 1024 for node 0. -/
theorem findReserved_skips_representable_quantity :
    (Quantity.int64Amount 20480 (-1)).representable = some 2048
    ∧ (Quantity.int64Amount 20480 (-1)).AsInt64 = none
    ∧ (findReservedMemoryFromKubelet
        [⟨0, some (GoMap.single "memory" (Quantity.ofInt 1024))⟩,
         ⟨0, some (GoMap.single "memory" (Quantity.int64Amount 20480 (-1)))⟩]).get 0
        = some 1024
    ∧ lastRepresentable
        [⟨0, some (GoMap.single "memory" (Quantity.ofInt 1024))⟩,
         ⟨0, some (GoMap.single "memory" (Quantity.int64Amount 20480 (-1)))⟩] 0
        = some 2048
    ∧ (findReservedMemoryFromKubelet
        [⟨0, some (GoMap.single "memory" (Quantity.ofInt 1024))⟩,
         ⟨0, some (GoMap.single "memory" (Quantity.int64Amount 20480 (-1)))⟩]).get 0
        ≠ lastRepresentable
        [⟨0, some (GoMap.single "memory" (Quantity.ofInt 1024))⟩,
         ⟨0, some (GoMap.single "memory" (Quantity.int64Amount 20480 (-1)))⟩] 0 := by
  refine ⟨by decide, by decide, by decide, by decide, by decide⟩

/-- C5, amended. `findReservedMemoryFromKubelet` is last-write-wins in input
order and skips the quantities that `AsInt64` refuses: the result maps `n` to
the value of the last entry, in list order, that targets `n` with a memory
limit that `AsInt64` accepts, that is a quantity kept as an `int64` amount
with a scale that is not negative and whose value fits an `int64`; that value
is the exact value of the quantity; `n` is absent from the result iff there is
no such entry; and an entry for `n` whose memory quantity `AsInt64` refuses
leaves the result as the earlier entries made it. -/
theorem findReserved_last_write_wins (entries : List MemoryReservation) (n : Int) :
    (findReservedMemoryFromKubelet entries).get n = lastReserved entries n
    ∧ (∀ v, (findReservedMemoryFromKubelet entries).get n = some v ↔
        ∃ before r after, entries = before ++ r :: after
          ∧ r.NumaNode = n ∧ memoryValue r = some v
          ∧ ∀ x ∈ after, x.NumaNode = n → memoryValue x = none)
    ∧ (n ∉ (findReservedMemoryFromKubelet entries).keys ↔
        ∀ r ∈ entries, r.NumaNode = n → memoryValue r = none)
    ∧ (∀ (r : MemoryReservation) (q : Quantity), r.NumaNode = n →
        mapGet r.Limits ResourceMemory = some q → q.AsInt64 = none →
        findReservedMemoryFromKubelet (entries ++ [r])
          = findReservedMemoryFromKubelet entries)
    ∧ (∀ (q : Quantity) (v : Int), q.AsInt64 = some v →
        q.representable = some v
        ∧ ∃ value scale, q = Quantity.int64Amount value scale ∧ 0 ≤ scale
          ∧ v = value * (10 : Int) ^ scale.toNat
          ∧ -(2 : Int) ^ 63 ≤ v ∧ v < (2 : Int) ^ 63) := by
  have hget : (findReservedMemoryFromKubelet entries).get n = lastReserved entries n := by
    rw [findReservedMemoryFromKubelet, get_reserveEntries]
    simp [GoMap.get, GoMap.empty]
  refine ⟨hget, ?_, ?_, ?_, ?_⟩
  · intro v
    rw [hget]
    exact lastReserved_eq_some_iff entries n v
  · have hk : n ∉ (findReservedMemoryFromKubelet entries).keys ↔
        (findReservedMemoryFromKubelet entries).get n = none := by
      exact (lookup_eq_none_iff_not_mem n _).symm
    rw [hk, hget, lastReserved, List.findSome?_eq_none_iff]
    constructor
    · intro h r hr hn
      simpa [hn] using h r (by simpa using hr)
    · intro h r hr
      by_cases hn : r.NumaNode = n
      · simpa [hn] using h r (by simpa using hr) hn
      · simp [hn]
  · intro r q _ hq hnone
    exact findReserved_append_of_none entries r (by simp [memoryValue, hq, hnone])
  · intro q v hq
    refine ⟨AsInt64_representable q v hq, ?_⟩
    cases q with
    | infDecAmount u e => simp [Quantity.AsInt64] at hq
    | int64Amount value scale =>
      simp only [Quantity.AsInt64] at hq
      split at hq
      · rename_i hc
        simp only [Option.some.injEq] at hq
        exact ⟨value, scale, rfl, hc.1, hq.symm, by rw [← hq]; exact hc.2.1,
          by rw [← hq]; exact hc.2.2⟩
      · simp at hq

theorem findReserved_last_write_wins_witness :
    (findReservedMemoryFromKubelet
        [⟨0, some (GoMap.single "memory" (Quantity.ofInt 1024))⟩,
         ⟨1, some (GoMap.single "memory" (Quantity.ofInt 512))⟩,
         ⟨0, some (GoMap.single "memory" (Quantity.int64Amount 2 3))⟩,
         ⟨0, some (GoMap.single "memory" (Quantity.int64Amount 40960 (-1)))⟩,
         ⟨0, some (GoMap.single "memory"
            (Quantity.infDecAmount 10000000000000000000 0))⟩,
         ⟨0, some (GoMap.single "cpu" (Quantity.ofInt 4))⟩]).get 0 = some 2000 :=
  (findReserved_last_write_wins _ 0).1.trans (by decide)

end config

/-! ## The optional configuration file: `ReadFile` -/

namespace config

/-- C9. `ReadFile` treats the file as optional: when reading fails because
the file does not exist it returns the zero `Config` and no error; when
reading fails otherwise it returns that error; when the content cannot be
parsed (it is not YAML, or it does not decode into a `Config`) it returns an
error; when the content parses it returns the parsed `Config`, the one
`Unrender` gives for the content, and no error. -/
theorem ReadFile_cases (Y : YAMLLib) (readFile : String → ReadResult) (configPath : String) :
    (∀ err, readFile configPath = .failure err true →
        ReadFile Y readFile configPath = (Config.zero, none))
    ∧ (∀ err, readFile configPath = .failure err false →
        ReadFile Y readFile configPath = (Config.zero, some err))
    ∧ (∀ data e, readFile configPath = .content data → Y.parse data = .error e →
        (ReadFile Y readFile configPath).2 ≠ none)
    ∧ (∀ data n e, readFile configPath = .content data → Y.parse data = .ok n →
        (Config.zero.fromNode n).2 = some e →
        (ReadFile Y readFile configPath).2 ≠ none)
    ∧ (∀ data n, readFile configPath = .content data → Y.parse data = .ok n →
        (Config.zero.fromNode n).2 = none →
        ReadFile Y readFile configPath = ((Config.zero.fromNode n).1, none))
    ∧ (∀ data, readFile configPath = .content data →
        ReadFile Y readFile configPath = Unrender Y data) := by
  refine ⟨?_, ?_, ?_, ?_, ?_, ?_⟩
  · intro err h; simp [ReadFile, h]
  · intro err h; simp [ReadFile, h]
  · intro data e h hp; simp [ReadFile, h, yamlUnmarshal, hp]
  · intro data n e h hp he; simp [ReadFile, h, yamlUnmarshal, hp, he]
  · intro data n h hp he; simp [ReadFile, h, yamlUnmarshal, hp, he]
  · intro data h; simp [ReadFile, h, Unrender]

/-- A file system with four paths: a missing file, a file that cannot be
read, a file that is not YAML, and a configuration file. -/
def sampleFiles (path : String) : ReadResult :=
  if path = "/etc/rte/config.yaml" then
    .content "\x7b\"podExcludes\": null, \"topologyManagerScope\": \"pod\"\x7d"
  else if path = "/etc/rte/broken.yaml" then .content "]["
  else if path = "/etc/rte/wrong.yaml" then .content "\x7b\"topologyManagerScope\": []\x7d"
  else if path = "/root/secret.yaml" then .failure "open /root/secret.yaml: permission denied" false
  else .failure "open: no such file or directory" true

theorem ReadFile_cases_witness :
    ReadFile flowYAML.library sampleFiles "/etc/rte/missing.yaml" = (Config.zero, none)
    ∧ ReadFile flowYAML.library sampleFiles "/root/secret.yaml"
        = (Config.zero, some "open /root/secret.yaml: permission denied")
    ∧ (ReadFile flowYAML.library sampleFiles "/etc/rte/broken.yaml").2 ≠ none
    ∧ (ReadFile flowYAML.library sampleFiles "/etc/rte/wrong.yaml").2 ≠ none
    ∧ ReadFile flowYAML.library sampleFiles "/etc/rte/config.yaml"
        = (Config.mk none "" "pod" none, none) :=
  ⟨(ReadFile_cases flowYAML.library sampleFiles "/etc/rte/missing.yaml").1
      "open: no such file or directory" (by decide),
    (ReadFile_cases flowYAML.library sampleFiles "/root/secret.yaml").2.1
      "open /root/secret.yaml: permission denied" (by decide),
    (ReadFile_cases flowYAML.library sampleFiles "/etc/rte/broken.yaml").2.2.1
      "][" "yaml: did not find expected node content" (by decide) (by rfl),
    (ReadFile_cases flowYAML.library sampleFiles "/etc/rte/wrong.yaml").2.2.2.1
      "\x7b\"topologyManagerScope\": []\x7d" (.map [("topologyManagerScope", .seq [])])
      "json: cannot unmarshal array into Go value of type string"
      (by decide) (by rfl) (by decide),
    (ReadFile_cases flowYAML.library sampleFiles "/etc/rte/config.yaml").2.2.2.2.1
      "\x7b\"podExcludes\": null, \"topologyManagerScope\": \"pod\"\x7d"
      (.map [("podExcludes", .null), ("topologyManagerScope", .str "pod")])
      (by decide) (by rfl) (by decide)⟩

end config

/-! ## The reconciler without a declaration -/

namespace controllers

/-- C10. With no declaration in the store and a kubelet-configuration object
that matches a pool, `Reconcile` for that object returns no error and exactly
`Result{RequeueAfter: kubeletConfigRetryPeriod}`, a non-zero duration, and
creates no artifact (and records no event). -/
theorem Reconcile_without_declaration (r : Reconciler) (c : Cluster) (req : Request)
    (kc : KubeletConfig)
    (hkc : c.kubeletConfigs.find? (fun kc =>
      kc.objectMeta.Namespace = req.Namespace ∧ kc.objectMeta.Name = req.Name) = some kc)
    (_hpool : ∃ p ∈ c.pools,
      selectorMatches kc.Spec.MachineConfigPoolSelector p.objectMeta.Labels = true)
    (hnone : ∀ d ∈ c.declarations, d.objectMeta.Name ≠ r.declarationName) :
    (Reconcile r c req).1
        = ({ Requeue := false, RequeueAfter := r.kubeletConfigRetryPeriod }, none)
    ∧ 0 < r.kubeletConfigRetryPeriod
    ∧ (Reconcile r c req).1.1 ≠ Result.zero
    ∧ (Reconcile r c req).2.artifacts = c.artifacts
    ∧ (Reconcile r c req).2.events = c.events := by
  have hd : c.declarations.find? (fun d => d.objectMeta.Name = r.declarationName) = none := by
    rw [List.find?_eq_none]
    intro d hd
    simpa using hnone d hd
  have hpos := r.retryPeriod_pos
  have hR : Reconcile r c req
      = (({ Requeue := false, RequeueAfter := r.kubeletConfigRetryPeriod }, none), c) := by
    simp only [Reconcile, hkc, hd]
  refine ⟨by rw [hR], hpos, ?_, by rw [hR], by rw [hR]⟩
  rw [hR]
  intro h
  have := congrArg Result.RequeueAfter h
  simp [Result.zero] at this
  omega


/-- The label set of the controller test, `map[string]string{"test1": "test1"}`. -/
def label1 : Option (GoMap String String) := some (GoMap.single "test1" "test1")

/-- The machine config pool `mcp1` of the controller test. -/
def mcp1 : MachineConfigPool :=
  objects.NewMachineConfigPool "machineconfiguration.openshift.io/v1" "test1" label1
    (some { MatchLabels := label1 }) (some { MatchLabels := label1 })

/-- The kubelet-configuration object `mcoKc1` of the controller test, with an
empty JSON object as payload. -/
def mcoKc1 : KubeletConfig :=
  objects.NewKubeletConfigWithData "machineconfiguration.openshift.io/v1" "test1" label1
    mcp1.Spec.MachineConfigSelector "\x7b\x7d"

/-- The string under a key of a JSON object; empty when the key is missing
or does not hold a string. -/
def stringMember (fields : List (String × Node)) (key : String) : String :=
  match fields.lookup key with
  | some (.str s) => s
  | _ => ""

/-- A decoder of kubelet payloads to compute with: the payload is a JSON
object, from which the topology-manager policy and scope are read; an empty
payload or one that is no object is an error. -/
def decodeSample (raw : String) : Except Error KubeletConfiguration :=
  if raw = "" then .error "unexpected end of JSON input"
  else
    match flowYAML.parse raw with
    | .ok (.map fields) =>
      .ok { TopologyManagerPolicy := stringMember fields "topologyManagerPolicy",
            TopologyManagerScope := stringMember fields "topologyManagerScope",
            ReservedMemory := [], other := raw }
    | .ok _ => .error "json: cannot unmarshal into Go value of type KubeletConfiguration"
    | .error e => .error e

/-- A reconciler to compute with: it retries after 30 seconds, names the
artifact `<declaration>-<pool>` and decodes the payload as a JSON object. -/
def sampleReconciler : Reconciler :=
  { Namespace := "test-namespace"
    yaml := flowYAML.library
    declarationName := "numaresourcesoperator"
    kubeletConfigRetryPeriod := 30000000000
    retryPeriod_pos := by decide
    GetComponentName := fun declaration pool => declaration ++ "-" ++ pool
    decodeKubeletConfig := decodeSample
    podExcludes := fun _ => none }

/-- The store of the test "without NRO present, should wait": the pool and the
kubelet-configuration object, no declaration. -/
def clusterWithoutNRO : Cluster :=
  { declarations := [], pools := [mcp1], kubeletConfigs := [mcoKc1], artifacts := [],
    events := [] }

theorem Reconcile_without_declaration_witness :
    (Reconcile sampleReconciler clusterWithoutNRO { Namespace := "", Name := "test1" }).1
        = ({ Requeue := false, RequeueAfter := 30000000000 }, none)
    ∧ 0 < sampleReconciler.kubeletConfigRetryPeriod
    ∧ (Reconcile sampleReconciler clusterWithoutNRO { Namespace := "", Name := "test1" }).1.1
        ≠ Result.zero
    ∧ (Reconcile sampleReconciler clusterWithoutNRO { Namespace := "", Name := "test1" }).2.artifacts
        = []
    ∧ (Reconcile sampleReconciler clusterWithoutNRO { Namespace := "", Name := "test1" }).2.events
        = [] :=
  Reconcile_without_declaration sampleReconciler clusterWithoutNRO
    { Namespace := "", Name := "test1" } mcoKc1 (by decide) ⟨mcp1, by decide, by decide⟩
    (by intro d hd; cases hd)

end controllers

/-! ## The reconciler with a declaration -/

namespace controllers

/-- Modelled from the spec: the get of the storage collaborator for an
artifact, by namespace and name. -/
def getArtifact (artifacts : List ConfigMap) (ns name : String) : Option ConfigMap :=
  artifacts.find? fun cm => cm.objectMeta.Namespace = ns ∧ cm.objectMeta.Name = name

theorem getArtifact_cons (cm : ConfigMap) (l : List ConfigMap) (ns name : String) :
    getArtifact (cm :: l) ns name
      = if cm.objectMeta.Namespace = ns ∧ cm.objectMeta.Name = name then some cm
        else getArtifact l ns name := by
  by_cases h : cm.objectMeta.Namespace = ns ∧ cm.objectMeta.Name = name
  · simp only [getArtifact, List.find?_cons, h, and_self, decide_True, if_true]
  · simp only [getArtifact, List.find?_cons, h, decide_False, if_false]

theorem getArtifact_upsert_self (cm : ConfigMap) :
    ∀ l : List ConfigMap,
      getArtifact (upsert cm l) cm.objectMeta.Namespace cm.objectMeta.Name = some cm
  | [] => by simp [upsert, getArtifact_cons, getArtifact]
  | old :: rest => by
    by_cases h : old.objectMeta.Namespace = cm.objectMeta.Namespace
        ∧ old.objectMeta.Name = cm.objectMeta.Name
    · simp [upsert, h, getArtifact_cons]
    · simp only [upsert, h, if_false, getArtifact_cons]
      exact getArtifact_upsert_self cm rest

theorem getArtifact_upsert_other (cm : ConfigMap) (ns name : String)
    (hne : ¬ (cm.objectMeta.Namespace = ns ∧ cm.objectMeta.Name = name)) :
    ∀ l : List ConfigMap, getArtifact (upsert cm l) ns name = getArtifact l ns name
  | [] => by simp [upsert, getArtifact_cons, hne, getArtifact]
  | old :: rest => by
    by_cases h : old.objectMeta.Namespace = cm.objectMeta.Namespace
        ∧ old.objectMeta.Name = cm.objectMeta.Name
    · have hold : ¬ (old.objectMeta.Namespace = ns ∧ old.objectMeta.Name = name) := by
        rw [h.1, h.2]; exact hne
      simp only [upsert, h, and_self, if_true, getArtifact_cons, hne, hold, if_false]
    · simp only [upsert, h, if_false, getArtifact_cons]
      rw [getArtifact_upsert_other cm ns name hne rest]

/-- The artifact the reconciler builds for a pool. -/
def artifactFor (r : Reconciler) (declaration : NUMAResourcesOperator) (text : String)
    (pool : MachineConfigPool) : ConfigMap :=
  config.CreateConfigMap r.Namespace
    (r.GetComponentName declaration.objectMeta.Name pool.objectMeta.Name) text

theorem publish_step (r : Reconciler) (d : NUMAResourcesOperator) (kc : KubeletConfig)
    (kl : KubeletConfiguration) (text : String)
    (hdec : r.decodeKubeletConfig (payload kc) = .ok kl)
    (hren : config.Render r.yaml kl (r.podExcludes d) = (text, none))
    (pool : MachineConfigPool) (rest : List MachineConfigPool) (arts : List ConfigMap) :
    publish r d kc (pool :: rest) arts
      = match Resolve (some d) pool with
        | none => publish r d kc rest arts
        | some _ => publish r d kc rest (upsert (artifactFor r d text pool) arts) := by
  rw [publish]
  cases Resolve (some d) pool with
  | none => rfl
  | some g => simp only [hdec, hren, artifactFor]

theorem publish_ok (r : Reconciler) (d : NUMAResourcesOperator) (kc : KubeletConfig)
    (kl : KubeletConfiguration) (text : String)
    (hdec : r.decodeKubeletConfig (payload kc) = .ok kl)
    (hren : config.Render r.yaml kl (r.podExcludes d) = (text, none)) :
    ∀ (pools : List MachineConfigPool) (arts : List ConfigMap),
      (publish r d kc pools arts).2 = none
  | [], _ => rfl
  | pool :: rest, arts => by
    rw [publish_step r d kc kl text hdec hren]
    cases Resolve (some d) pool with
    | none => exact publish_ok r d kc kl text hdec hren rest arts
    | some g => exact publish_ok r d kc kl text hdec hren rest _

theorem publish_keeps (r : Reconciler) (d : NUMAResourcesOperator) (kc : KubeletConfig)
    (kl : KubeletConfiguration) (text : String)
    (hdec : r.decodeKubeletConfig (payload kc) = .ok kl)
    (hren : config.Render r.yaml kl (r.podExcludes d) = (text, none)) (name : String) :
    ∀ (pools : List MachineConfigPool) (arts : List ConfigMap),
      getArtifact arts r.Namespace name = some (config.CreateConfigMap r.Namespace name text) →
      getArtifact (publish r d kc pools arts).1 r.Namespace name
        = some (config.CreateConfigMap r.Namespace name text)
  | [], _, h => h
  | pool :: rest, arts, h => by
    rw [publish_step r d kc kl text hdec hren]
    cases Resolve (some d) pool with
    | none => exact publish_keeps r d kc kl text hdec hren name rest arts h
    | some g =>
      apply publish_keeps r d kc kl text hdec hren name rest
      by_cases hn : r.GetComponentName d.objectMeta.Name pool.objectMeta.Name = name
      · have := getArtifact_upsert_self (artifactFor r d text pool) arts
        simpa [artifactFor, config.CreateConfigMap, hn] using this
      · rw [getArtifact_upsert_other _ _ _ (by simp [artifactFor, config.CreateConfigMap, hn])]
        exact h

theorem publish_writes (r : Reconciler) (d : NUMAResourcesOperator) (kc : KubeletConfig)
    (kl : KubeletConfiguration) (text : String)
    (hdec : r.decodeKubeletConfig (payload kc) = .ok kl)
    (hren : config.Render r.yaml kl (r.podExcludes d) = (text, none))
    (p : MachineConfigPool) (hres : Resolve (some d) p ≠ none) :
    ∀ (pools : List MachineConfigPool) (arts : List ConfigMap), p ∈ pools →
      getArtifact (publish r d kc pools arts).1 r.Namespace
          (r.GetComponentName d.objectMeta.Name p.objectMeta.Name)
        = some (artifactFor r d text p)
  | [], _, h => by simp at h
  | pool :: rest, arts, h => by
    rw [publish_step r d kc kl text hdec hren]
    rcases List.mem_cons.mp h with heq | hmem
    · subst heq
      cases hr : Resolve (some d) p with
      | none => exact absurd hr hres
      | some g =>
        apply publish_keeps r d kc kl text hdec hren _ rest
        have := getArtifact_upsert_self (artifactFor r d text p) arts
        simpa [artifactFor, config.CreateConfigMap] using this
    · cases Resolve (some d) pool with
      | none => exact publish_writes r d kc kl text hdec hren p hres rest arts hmem
      | some g => exact publish_writes r d kc kl text hdec hren p hres rest _ hmem


theorem Resolve_ne_none (d : NUMAResourcesOperator) (p : MachineConfigPool)
    (h : ∃ g ∈ d.Spec.NodeGroups,
      selectorMatches g.MachineConfigPoolSelector p.objectMeta.Labels = true) :
    Resolve (some d) p ≠ none := by
  obtain ⟨g, hg, hm⟩ := h
  simp only [Resolve, ne_eq, List.find?_eq_none, not_forall]
  exact ⟨g, hg, by simp [hm]⟩

theorem publish_decode_error (r : Reconciler) (d : NUMAResourcesOperator) (kc : KubeletConfig)
    (e : Error) (hdec : r.decodeKubeletConfig (payload kc) = .error e) :
    ∀ (pools : List MachineConfigPool) (arts : List ConfigMap),
      (∃ p ∈ pools, Resolve (some d) p ≠ none) → publish r d kc pools arts = (arts, some e)
  | [], _, h => by obtain ⟨p, hp, _⟩ := h; simp at hp
  | pool :: rest, arts, h => by
    rw [publish]
    cases hr : Resolve (some d) pool with
    | some g => simp only [hdec]
    | none =>
      simp only
      apply publish_decode_error r d kc e hdec rest arts
      obtain ⟨p, hp, hres⟩ := h
      rcases List.mem_cons.mp hp with heq | hmem
      · subst heq; exact absurd hr hres
      · exact ⟨p, hmem, hres⟩

/-- C11, amended. Given a declaration with a node group whose selector
matches the pool, and a kubelet-configuration object for that pool whose
payload decodes to a configuration that `Render` accepts, `Reconcile` returns
no error and the empty result, and afterwards the store holds, in the
reconciler's namespace and under the name
`GetComponentName(declaration name, pool name)`, a config map whose
"config.yaml" is the text `Render` gives for the decoded configuration: what
the YAML library writes for a mapping that holds the policy and the scope of
that configuration, each when it is not empty. -/
theorem Reconcile_creates_configmap (r : Reconciler) (c : Cluster) (req : Request)
    (kc : KubeletConfig) (d : NUMAResourcesOperator) (p : MachineConfigPool)
    (kl : KubeletConfiguration)
    (hkc : c.kubeletConfigs.find? (fun kc =>
      kc.objectMeta.Namespace = req.Namespace ∧ kc.objectMeta.Name = req.Name) = some kc)
    (hd : c.declarations.find? (fun d => d.objectMeta.Name = r.declarationName) = some d)
    (hp : p ∈ c.pools)
    (hsel : selectorMatches kc.Spec.MachineConfigPoolSelector p.objectMeta.Labels = true)
    (hgroup : ∃ g ∈ d.Spec.NodeGroups,
      selectorMatches g.MachineConfigPoolSelector p.objectMeta.Labels = true)
    (hdec : r.decodeKubeletConfig (payload kc) = .ok kl)
    (hrender : (config.Render r.yaml kl (r.podExcludes d)).2 = none) :
    (Reconcile r c req).1 = (Result.zero, none)
    ∧ ∃ cm, getArtifact (Reconcile r c req).2.artifacts r.Namespace
          (r.GetComponentName d.objectMeta.Name p.objectMeta.Name) = some cm
        ∧ cm.objectMeta.Namespace = r.Namespace
        ∧ cm.objectMeta.Name = r.GetComponentName d.objectMeta.Name p.objectMeta.Name
        ∧ config.UnpackConfigMap (some cm)
            = ((config.Render r.yaml kl (r.podExcludes d)).1, none)
        ∧ ∃ fields, r.yaml.emit (Node.map fields) = .ok (config.UnpackConfigMap (some cm)).1
          ∧ (kl.TopologyManagerPolicy ≠ "" →
              fields.lookup "topologyManagerPolicy" = some (Node.str kl.TopologyManagerPolicy))
          ∧ (kl.TopologyManagerScope ≠ "" →
              fields.lookup "topologyManagerScope" = some (Node.str kl.TopologyManagerScope)) := by
  have hren : config.Render r.yaml kl (r.podExcludes d)
      = ((config.Render r.yaml kl (r.podExcludes d)).1, none) :=
    Prod.ext rfl hrender
  have hmem : p ∈ c.pools.filter (fun p =>
      selectorMatches kc.Spec.MachineConfigPoolSelector p.objectMeta.Labels) :=
    List.mem_filter.mpr ⟨hp, hsel⟩
  have hok := publish_ok r d kc kl _ hdec hren
    (c.pools.filter fun p =>
      selectorMatches kc.Spec.MachineConfigPoolSelector p.objectMeta.Labels) c.artifacts
  have hw := publish_writes r d kc kl _ hdec hren p (Resolve_ne_none d p hgroup) _ c.artifacts hmem
  have hR : Reconcile r c req
      = ((Result.zero, none),
          { c with
            artifacts := (publish r d kc (c.pools.filter fun p =>
              selectorMatches kc.Spec.MachineConfigPoolSelector p.objectMeta.Labels)
              c.artifacts).1,
            events := c.events ++ [signal d "ProcessOK" ""] }) := by
    simp only [Reconcile, hkc, hd]
    split
    · rename_i arts e heq
      rw [heq] at hok
      simp at hok
    · rename_i arts heq
      rw [heq]
  have hemit := config.Render_emit r.yaml kl (r.podExcludes d) hrender
  have hpol : (config.renderConf kl (r.podExcludes d)).TopologyManagerPolicy
      = kl.TopologyManagerPolicy := by
    unfold config.renderConf; split <;> rfl
  have hsc : (config.renderConf kl (r.podExcludes d)).TopologyManagerScope
      = kl.TopologyManagerScope := by
    unfold config.renderConf; split <;> rfl
  have hx := config.renderConf_excludeList kl (r.podExcludes d)
  have hunpack : config.UnpackConfigMap
      (some (artifactFor r d (config.Render r.yaml kl (r.podExcludes d)).1 p))
      = ((config.Render r.yaml kl (r.podExcludes d)).1, none) := by
    simp [artifactFor, config.UnpackConfigMap, config.CreateConfigMap, GoMap.get, GoMap.single]
  rw [hR]
  refine ⟨rfl, artifactFor r d (config.Render r.yaml kl (r.podExcludes d)).1 p, hw, rfl, rfl,
    hunpack, (config.renderConf kl (r.podExcludes d)).members, ?_, ?_, ?_⟩
  · rw [hunpack]; exact hemit
  · intro hne
    by_cases hs : kl.TopologyManagerScope = "" <;>
      simp [config.Config.members, hx, hpol, hsc, hne, hs, List.lookup]
  · intro hne
    by_cases hpe : kl.TopologyManagerPolicy = "" <;>
      simp [config.Config.members, hx, hpol, hsc, hne, hpe, List.lookup]

/-- The declaration `nro` of the controller test: one node group, selecting
the label set of the test. -/
def nro : NUMAResourcesOperator :=
  objects.NewNUMAResourcesOperator "nodetopology.openshift.io/v1alpha1" "numaresourcesoperator"
    [some { MatchLabels := label1 }]

/-- The store of the test "with NRO present, should create configmap". -/
def clusterWithNRO : Cluster :=
  { declarations := [nro], pools := [mcp1], kubeletConfigs := [mcoKc1], artifacts := [],
    events := [] }

/-- The kubelet-configuration object `brokenMcoKc` of the controller test: an
empty byte payload. -/
def brokenMcoKc : KubeletConfig :=
  objects.NewKubeletConfigWithData "machineconfiguration.openshift.io/v1" "test1" label1
    mcp1.Spec.MachineConfigSelector ""

/-- The store of the test "should send events when NRO present and operation
failure". -/
def clusterWithBrokenPayload : Cluster :=
  { declarations := [nro], pools := [mcp1], kubeletConfigs := [brokenMcoKc], artifacts := [],
    events := [] }

/-- A kubelet-configuration object for the pool of the test whose payload
sets the policy `single-numa-node` and the scope `pod`. -/
def mcoKcSingleNuma : KubeletConfig :=
  objects.NewKubeletConfigWithData "machineconfiguration.openshift.io/v1" "test1" label1
    mcp1.Spec.MachineConfigSelector
    "\x7b\"topologyManagerPolicy\": \"single-numa-node\", \"topologyManagerScope\": \"pod\"\x7d"

/-- The store of the controller test with that object. -/
def clusterWithSingleNuma : Cluster :=
  { declarations := [nro], pools := [mcp1], kubeletConfigs := [mcoKcSingleNuma],
    artifacts := [], events := [] }

/-- A kubelet-configuration object for the pool of the test whose payload
decodes, to the policy U+007F. -/
def mcoKcDelete : KubeletConfig :=
  objects.NewKubeletConfigWithData "machineconfiguration.openshift.io/v1" "test1" label1
    mcp1.Spec.MachineConfigSelector "\x7b\"topologyManagerPolicy\": \"\x7f\"\x7d"

/-- The store of the controller test with that object. -/
def clusterWithDelete : Cluster :=
  { declarations := [nro], pools := [mcp1], kubeletConfigs := [mcoKcDelete],
    artifacts := [], events := [] }

/-- The store of the controller test with the empty payload and no pool. -/
def clusterWithoutPool : Cluster :=
  { declarations := [nro], pools := [], kubeletConfigs := [brokenMcoKc], artifacts := [],
    events := [] }

theorem Reconcile_creates_configmap_witness :
    (Reconcile sampleReconciler clusterWithSingleNuma { Namespace := "", Name := "test1" }).1
        = (Result.zero, none)
    ∧ ∃ cm, getArtifact
          (Reconcile sampleReconciler clusterWithSingleNuma
            { Namespace := "", Name := "test1" }).2.artifacts
          "test-namespace" "numaresourcesoperator-test1" = some cm
        ∧ cm.objectMeta.Namespace = "test-namespace"
        ∧ cm.objectMeta.Name = "numaresourcesoperator-test1"
        ∧ config.UnpackConfigMap (some cm)
            = ((config.Render flowYAML.library
                { TopologyManagerPolicy := "single-numa-node", TopologyManagerScope := "pod",
                  ReservedMemory := [], other := payload mcoKcSingleNuma } none).1, none)
        ∧ ∃ fields, flowYAML.library.emit (Node.map fields)
            = .ok (config.UnpackConfigMap (some cm)).1
          ∧ ("single-numa-node" ≠ "" →
              fields.lookup "topologyManagerPolicy" = some (Node.str "single-numa-node"))
          ∧ ("pod" ≠ "" → fields.lookup "topologyManagerScope" = some (Node.str "pod")) :=
  Reconcile_creates_configmap sampleReconciler clusterWithSingleNuma
    { Namespace := "", Name := "test1" } mcoKcSingleNuma nro mcp1
    { TopologyManagerPolicy := "single-numa-node", TopologyManagerScope := "pod",
      ReservedMemory := [], other := payload mcoKcSingleNuma }
    (by decide) (by decide) (by decide) (by decide)
    ⟨{ MachineConfigPoolSelector := some { MatchLabels := label1 }, Config := none },
      by decide, by decide⟩
    (by rfl) (by decide)

/-- C11, as stated, fails: the payload of the object decodes, to the policy
U+007F, the declaration selects the pool, and yet `Reconcile` returns the
error of `Render`, records `ProcessFailed` and leaves the store without config
map. -/
theorem Reconcile_fails_on_refused_policy :
    sampleReconciler.decodeKubeletConfig (payload mcoKcDelete)
        = .ok { TopologyManagerPolicy := "\x7f", TopologyManagerScope := "",
                ReservedMemory := [], other := payload mcoKcDelete }
    ∧ (Reconcile sampleReconciler clusterWithDelete { Namespace := "", Name := "test1" }).1
        = (Result.zero, some config.controlCharactersError)
    ∧ (Reconcile sampleReconciler clusterWithDelete
          { Namespace := "", Name := "test1" }).2.artifacts = []
    ∧ getArtifact
        (Reconcile sampleReconciler clusterWithDelete
          { Namespace := "", Name := "test1" }).2.artifacts
        "test-namespace" "numaresourcesoperator-test1" = none := by
  refine ⟨by rfl, by decide, by decide, by decide⟩

/-- C12, as stated, fails: the declaration is present and the payload of the
object cannot be decoded, but no pool of the store is matched, so the payload
is never decoded: `Reconcile` returns no error and records `ProcessOK`. -/
theorem Reconcile_undecodable_without_pool :
    sampleReconciler.decodeKubeletConfig (payload brokenMcoKc)
        = .error "unexpected end of JSON input"
    ∧ (Reconcile sampleReconciler clusterWithoutPool { Namespace := "", Name := "test1" }).1
        = (Result.zero, none)
    ∧ (Reconcile sampleReconciler clusterWithoutPool
          { Namespace := "", Name := "test1" }).2.events
        = [{ object := "numaresourcesoperator", severity := "Normal", reason := "ProcessOK",
             message := "" }] := by
  refine ⟨by rfl, by decide, by decide⟩

/-- C12, amended. Outcome signalling of `Reconcile` for a request whose object
is in the store, when the declaration is present: when no error is returned
exactly one event is recorded and it is tagged `ProcessOK`; when an error is
returned exactly one event is recorded and it is tagged `ProcessFailed`; and
when the object matches a pool that a node group of the declaration selects
and its payload cannot be decoded, `Reconcile` returns that error and records
exactly one `ProcessFailed` event. -/
theorem Reconcile_signals_outcome (r : Reconciler) (c : Cluster) (req : Request)
    (kc : KubeletConfig) (d : NUMAResourcesOperator)
    (hkc : c.kubeletConfigs.find? (fun kc =>
      kc.objectMeta.Namespace = req.Namespace ∧ kc.objectMeta.Name = req.Name) = some kc)
    (hd : c.declarations.find? (fun d => d.objectMeta.Name = r.declarationName) = some d) :
    ((Reconcile r c req).1.2 = none →
        (Reconcile r c req).2.events = c.events ++ [signal d "ProcessOK" ""])
    ∧ (∀ e, (Reconcile r c req).1.2 = some e →
        (Reconcile r c req).2.events = c.events ++ [signal d "ProcessFailed" e])
    ∧ (∀ p e, p ∈ c.pools →
        selectorMatches kc.Spec.MachineConfigPoolSelector p.objectMeta.Labels = true →
        (∃ g ∈ d.Spec.NodeGroups,
          selectorMatches g.MachineConfigPoolSelector p.objectMeta.Labels = true) →
        r.decodeKubeletConfig (payload kc) = .error e →
        (Reconcile r c req).1.2 = some e
        ∧ (Reconcile r c req).2.events = c.events ++ [signal d "ProcessFailed" e])
    ∧ (signal d "ProcessOK" "").reason = "ProcessOK"
    ∧ (∀ e, (signal d "ProcessFailed" e).reason = "ProcessFailed") := by
  have hcases : ∀ arts oe, publish r d kc (c.pools.filter fun p =>
        selectorMatches kc.Spec.MachineConfigPoolSelector p.objectMeta.Labels) c.artifacts
        = (arts, oe) →
      (Reconcile r c req).1.2 = oe
      ∧ (Reconcile r c req).2.events = c.events ++
          [match oe with
            | none => signal d "ProcessOK" ""
            | some e => signal d "ProcessFailed" e] := by
    intro arts oe h
    simp only [Reconcile, hkc, hd, h]
    cases oe with
    | none => exact ⟨rfl, rfl⟩
    | some e => exact ⟨rfl, rfl⟩
  obtain ⟨h1, h2⟩ := hcases _ _ rfl
  refine ⟨?_, ?_, ?_, rfl, fun _ => rfl⟩
  · intro hnone
    rw [h1] at hnone
    rw [h2, hnone]
  · intro e he
    rw [h1] at he
    rw [h2, he]
  · intro p e hp hsel hgroup hdec
    have hpub := publish_decode_error r d kc e hdec
      (c.pools.filter fun p =>
        selectorMatches kc.Spec.MachineConfigPoolSelector p.objectMeta.Labels) c.artifacts
      ⟨p, List.mem_filter.mpr ⟨hp, hsel⟩, Resolve_ne_none d p hgroup⟩
    obtain ⟨h3, h4⟩ := hcases _ _ hpub
    exact ⟨h3, h4⟩

theorem Reconcile_signals_outcome_witness :
    (Reconcile sampleReconciler clusterWithNRO { Namespace := "", Name := "test1" }).2.events
        = [{ object := "numaresourcesoperator", severity := "Normal", reason := "ProcessOK",
             message := "" }]
    ∧ (Reconcile sampleReconciler clusterWithBrokenPayload
          { Namespace := "", Name := "test1" }).1.2 = some "unexpected end of JSON input"
    ∧ (Reconcile sampleReconciler clusterWithBrokenPayload
          { Namespace := "", Name := "test1" }).2.events
        = [{ object := "numaresourcesoperator", severity := "Normal", reason := "ProcessFailed",
             message := "unexpected end of JSON input" }] :=
  ⟨(Reconcile_signals_outcome sampleReconciler clusterWithNRO { Namespace := "", Name := "test1" }
      mcoKc1 nro (by decide) (by decide)).1 (by decide),
    ((Reconcile_signals_outcome sampleReconciler clusterWithBrokenPayload
      { Namespace := "", Name := "test1" } brokenMcoKc nro (by decide) (by decide)).2.2.1
      mcp1 "unexpected end of JSON input" (by decide) (by decide)
      ⟨{ MachineConfigPoolSelector := some { MatchLabels := label1 }, Config := none },
        by decide, by decide⟩ rfl)⟩

end controllers

/-! ## Test fixture (`test/utils/fixture/fixture.go`) -/

namespace fixture

/-- The constant `time.Second`, in nanoseconds (a `time.Duration` counts
nanoseconds). -/
def Second : Int := 1000000000

/-- The constant `defaultTeardownTime` (fixture.go, line 54). -/
def defaultTeardownTime : Int := 180 * Second

/-- The constant `defaultCooldownTime` (fixture.go, line 55). -/
def defaultCooldownTime : Int := 30 * Second

/-- The function `getCooldownTimeFromEnvVar` (fixture.go, lines 189-200).
`lookupEnv` is `os.LookupEnv` on the environment at hand (`none` for
`ok == false`) and `parseDuration` is `time.ParseDuration`; the message
written to the log is not part of the result. -/
def getCooldownTimeFromEnvVar (lookupEnv : String → Option String)
    (parseDuration : String → Except Error Int) : Int :=
  match lookupEnv "E2E_NROP_TEST_COOLDOWN" with
  | none => defaultCooldownTime
  | some raw =>
    match parseDuration raw with
    | .error _ => defaultCooldownTime
    | .ok val => val

/-- The function `getTeardownTimeFromEnvVar` (fixture.go, lines 202-213). -/
def getTeardownTimeFromEnvVar (lookupEnv : String → Option String)
    (parseDuration : String → Except Error Int) : Int :=
  match lookupEnv "E2E_NROP_TEST_TEARDOWN" with
  | none => defaultTeardownTime
  | some raw =>
    match parseDuration raw with
    | .error _ => defaultTeardownTime
    | .ok val => val

end fixture

/-! ## Pack and unpack; what `Render` reads -/

namespace config

/-- C13. Pack and unpack: for every namespace, name and text `d`,
`UnpackConfigMap(CreateConfigMap(namespace, name, d))` returns `d` with no
error. -/
theorem UnpackConfigMap_CreateConfigMap (ns name d : String) :
    UnpackConfigMap (some (CreateConfigMap ns name d)) = (d, none) := by
  simp [UnpackConfigMap, CreateConfigMap, GoMap.get, GoMap.single]

/-- C14. `Render` depends only on `TopologyManagerPolicy`,
`TopologyManagerScope` and the pod excludes: two kubelet configurations that
agree on those two fields, whatever their memory reservations and other
fields, give the same text and the same error. -/
theorem Render_depends_only_on_policy_and_scope (Y : YAMLLib)
    (kl1 kl2 : KubeletConfiguration) (podExcludes : Option (GoMap String String))
    (hp : kl1.TopologyManagerPolicy = kl2.TopologyManagerPolicy)
    (hs : kl1.TopologyManagerScope = kl2.TopologyManagerScope) :
    Render Y kl1 podExcludes = Render Y kl2 podExcludes
    ∧ (Render Y kl1 podExcludes).1 = (Render Y kl2 podExcludes).1
    ∧ (Render Y kl1 podExcludes).2 = (Render Y kl2 podExcludes).2 := by
  have h : Render Y kl1 podExcludes = Render Y kl2 podExcludes := by
    simp only [Render, renderConf, hp, hs]
  exact ⟨h, by rw [h], by rw [h]⟩

theorem Render_depends_only_on_policy_and_scope_witness :
    Render flowYAML.library
        { TopologyManagerPolicy := "single-numa-node", TopologyManagerScope := "pod",
          ReservedMemory := [⟨0, some (GoMap.single "memory" (Quantity.ofInt 1024))⟩],
          other := "cpuManagerPolicy: static" }
        (some (GoMap.single "ns" "pod"))
      = Render flowYAML.library
        { TopologyManagerPolicy := "single-numa-node", TopologyManagerScope := "pod",
          ReservedMemory := [], other := "" }
        (some (GoMap.single "ns" "pod")) :=
  (Render_depends_only_on_policy_and_scope flowYAML.library _ _ _ rfl rfl).1

end config

/-! ## `NewNUMAResourcesOperator` -/

namespace objects

theorem appendNodeGroups_eq :
    ∀ (labelSelectors : List (Option LabelSelector)) (nodeGroups : List NodeGroup),
      appendNodeGroups labelSelectors nodeGroups
        = nodeGroups ++ labelSelectors.map fun selector =>
            { MachineConfigPoolSelector := selector, Config := none }
  | [], nodeGroups => by simp [appendNodeGroups]
  | selector :: rest, nodeGroups => by
    simp [appendNodeGroups, appendNodeGroups_eq rest]

/-- C15. `NewNUMAResourcesOperator` preserves the selectors: the object has
the given name, `Spec.NodeGroups` is as long as the list of selectors, its
`i`-th node group carries the `i`-th selector and no `Config`, and for an
empty list `NodeGroups` is empty. -/
theorem NewNUMAResourcesOperator_preserves_selectors (groupVersion name : String)
    (labelSelectors : List (Option LabelSelector)) :
    (NewNUMAResourcesOperator groupVersion name labelSelectors).objectMeta.Name = name
    ∧ (NewNUMAResourcesOperator groupVersion name labelSelectors).Spec.NodeGroups.length
        = labelSelectors.length
    ∧ (∀ i : Nat,
        (NewNUMAResourcesOperator groupVersion name labelSelectors).Spec.NodeGroups[i]?
          = labelSelectors[i]?.map fun selector =>
              { MachineConfigPoolSelector := selector, Config := none })
    ∧ (NewNUMAResourcesOperator groupVersion name []).Spec.NodeGroups = [] := by
  have h : (NewNUMAResourcesOperator groupVersion name labelSelectors).Spec.NodeGroups
      = labelSelectors.map fun selector =>
          { MachineConfigPoolSelector := selector, Config := none } := by
    simp [NewNUMAResourcesOperator, appendNodeGroups_eq]
  refine ⟨rfl, ?_, ?_, rfl⟩
  · rw [h, List.length_map]
  · intro i
    rw [h, List.getElem?_map]

end objects

/-! ## Timing constants from the environment -/

namespace fixture

/-- C16. The timing constants fall back to their defaults:
`getCooldownTimeFromEnvVar` returns 30 seconds when `E2E_NROP_TEST_COOLDOWN`
is unset or is no duration, and the parsed duration otherwise;
`getTeardownTimeFromEnvVar` does the same with `E2E_NROP_TEST_TEARDOWN` and
180 seconds. -/
theorem timing_constants_fall_back (lookupEnv : String → Option String)
    (parseDuration : String → Except Error Int) :
    (lookupEnv "E2E_NROP_TEST_COOLDOWN" = none →
        getCooldownTimeFromEnvVar lookupEnv parseDuration = 30 * Second)
    ∧ (∀ raw e, lookupEnv "E2E_NROP_TEST_COOLDOWN" = some raw → parseDuration raw = .error e →
        getCooldownTimeFromEnvVar lookupEnv parseDuration = 30 * Second)
    ∧ (∀ raw val, lookupEnv "E2E_NROP_TEST_COOLDOWN" = some raw → parseDuration raw = .ok val →
        getCooldownTimeFromEnvVar lookupEnv parseDuration = val)
    ∧ (lookupEnv "E2E_NROP_TEST_TEARDOWN" = none →
        getTeardownTimeFromEnvVar lookupEnv parseDuration = 180 * Second)
    ∧ (∀ raw e, lookupEnv "E2E_NROP_TEST_TEARDOWN" = some raw → parseDuration raw = .error e →
        getTeardownTimeFromEnvVar lookupEnv parseDuration = 180 * Second)
    ∧ (∀ raw val, lookupEnv "E2E_NROP_TEST_TEARDOWN" = some raw → parseDuration raw = .ok val →
        getTeardownTimeFromEnvVar lookupEnv parseDuration = val) := by
  refine ⟨?_, ?_, ?_, ?_, ?_, ?_⟩
  · intro h; simp [getCooldownTimeFromEnvVar, h, defaultCooldownTime]
  · intro raw e h hp; simp [getCooldownTimeFromEnvVar, h, hp, defaultCooldownTime]
  · intro raw val h hp; simp [getCooldownTimeFromEnvVar, h, hp]
  · intro h; simp [getTeardownTimeFromEnvVar, h, defaultTeardownTime]
  · intro raw e h hp; simp [getTeardownTimeFromEnvVar, h, hp, defaultTeardownTime]
  · intro raw val h hp; simp [getTeardownTimeFromEnvVar, h, hp]

/-- A duration parser to compute with: it reads a run of decimal digits
followed by `s` as that many seconds and rejects everything else. -/
def parseSeconds (raw : String) : Except Error Int :=
  match raw.data.reverse with
  | 's' :: digits =>
    if digits ≠ [] ∧ digits.all Char.isDigit then
      .ok (Int.ofNat (digits.reverse.foldl (fun n c => 10 * n + (c.toNat - '0'.toNat)) 0)
        * Second)
    else .error ("time: invalid duration " ++ raw)
  | _ => .error ("time: invalid duration " ++ raw)

/-- An environment that sets the cooldown to 45 seconds and the teardown to a
text that is no duration. -/
def sampleEnv (name : String) : Option String :=
  if name = "E2E_NROP_TEST_COOLDOWN" then some "45s"
  else if name = "E2E_NROP_TEST_TEARDOWN" then some "soon"
  else none

theorem timing_constants_fall_back_witness :
    getCooldownTimeFromEnvVar sampleEnv parseSeconds = 45000000000
    ∧ getTeardownTimeFromEnvVar sampleEnv parseSeconds = 180 * Second
    ∧ getCooldownTimeFromEnvVar (fun _ => none) parseSeconds = 30 * Second
    ∧ getTeardownTimeFromEnvVar (fun _ => none) parseSeconds = 180 * Second :=
  ⟨(timing_constants_fall_back sampleEnv parseSeconds).2.2.1 "45s" 45000000000
      (by decide) (by rfl),
    (timing_constants_fall_back sampleEnv parseSeconds).2.2.2.2.1 "soon"
      "time: invalid duration soon" (by decide) (by rfl),
    (timing_constants_fall_back (fun _ => none) parseSeconds).1 rfl,
    (timing_constants_fall_back (fun _ => none) parseSeconds).2.2.2.1 rfl⟩

end fixture
